import Mathlib

/-!
Verification development for the FileMetaLib repository.

The Python sources are embedded shallowly:

* Python values stored in metadata records, queries and indexes become the
  inductive type `Value` (Python `None`, `bool`, `int`/`float`, `str`, `list`,
  `dict`).  Numeric values are modelled as integers; every numeric literal in
  the repository's flows of interest is an integer.
* Python dicts keyed by strings become ordered association lists
  (`List (String × Value)`), which preserve Python's insertion order.
* Python sets of paths become `Finset String`.
* Python exceptions become `Except`: the query engine collapses all exception
  identities into the single constructor `PyErr.raised` (only raise-vs-return
  is observable for the specified properties), while the manager distinguishes
  `FileAccessError` and `PluginError` because the spec does.
-/

/-- Python value universe for metadata records and queries.  `int` models both
Python `int` and `float` (all numbers appearing in the modelled flows are
integers); `dict` keys are strings, as everywhere in the repository. -/
inductive Value where
  | none
  | bool (b : Bool)
  | int (n : Int)
  | str (s : String)
  | list (xs : List Value)
  | dict (kvs : List (String × Value))

/-- Python treats `bool` as a subclass of `int`: numeric view of a value. -/
def pyNum? : Value → Option Int
  | .bool b => some (if b then 1 else 0)
  | .int n => some n
  | _ => Option.none

mutual
/-- Python `==` on the modelled value universe: numeric cross-type equality
(`True == 1`), structural equality on strings and lists, order-insensitive
key/value equality on dicts. -/
def pyEq : Value → Value → Bool
  | .none, .none => true
  | .str s, .str t => s == t
  | .list xs, .list ys => pyEqList xs ys
  | .dict xs, .dict ys => xs.length == ys.length && pyEqEntries xs ys
  | a, b =>
    match pyNum? a, pyNum? b with
    | some m, some n => m == n
    | _, _ => false
termination_by a b => sizeOf a + sizeOf b

/-- Pointwise Python `==` on lists. -/
def pyEqList : List Value → List Value → Bool
  | [], [] => true
  | x :: xs, y :: ys => pyEq x y && pyEqList xs ys
  | _, _ => false
termination_by xs ys => sizeOf xs + sizeOf ys

/-- Every key of the first dict is present in the second with `==` value. -/
def pyEqEntries : List (String × Value) → List (String × Value) → Bool
  | [], _ => true
  | (k, v) :: rest, ys => pyLookupEq ys k v && pyEqEntries rest ys
termination_by xs ys => sizeOf xs + sizeOf ys

/-- Look up a key in a dict and compare the stored value with `==`. -/
def pyLookupEq : List (String × Value) → String → Value → Bool
  | [], _, _ => false
  | (k', w) :: rest, k, v => if k' == k then pyEq v w else pyLookupEq rest k v
termination_by ys _ v => sizeOf ys + sizeOf v
end

/-- The single error of the query-engine model: some Python exception
propagates.  Exception identities (TypeError, AttributeError, re.error, …)
are collapsed; only raise-vs-return is observable in the specified
properties. -/
inductive PyErr where
  | raised
deriving DecidableEq

/-- Ordering comparisons used by `$gt`/`$gte`/`$lt`/`$lte`. -/
inductive CmpOp where
  | lt | le | gt | ge
deriving DecidableEq

def cmpInt : CmpOp → Int → Int → Bool
  | .lt, a, b => a < b
  | .le, a, b => a ≤ b
  | .gt, a, b => b < a
  | .ge, a, b => b ≤ a

/-- Lexicographic code-point comparison of character lists (Python string
`<`). -/
def charsLt : List Char → List Char → Bool
  | [], [] => false
  | [], _ :: _ => true
  | _ :: _, [] => false
  | a :: as, b :: bs => if a = b then charsLt as bs else decide (a.toNat < b.toNat)

def cmpStr : CmpOp → String → String → Bool
  | .lt, a, b => charsLt a.toList b.toList
  | .le, a, b => charsLt a.toList b.toList || a == b
  | .gt, a, b => charsLt b.toList a.toList
  | .ge, a, b => charsLt b.toList a.toList || a == b

/-- Result of comparing list lengths once a common prefix is `==`-equal. -/
def cmpTailEmpty : CmpOp → Bool
  | .lt => false
  | .le => true
  | .gt => false
  | .ge => true

mutual
/-- Python rich comparison (`<`, `<=`, `>`, `>=`): numbers compare with
numbers (bools count as numbers), strings with strings, lists with lists
lexicographically; every other pairing raises TypeError. -/
def pyCmp : CmpOp → Value → Value → Except PyErr Bool
  | op, .str s, .str t => .ok (cmpStr op s t)
  | op, .list xs, .list ys => pyCmpList op xs ys
  | op, a, b =>
    match pyNum? a, pyNum? b with
    | some m, some n => .ok (cmpInt op m n)
    | _, _ => .error .raised
termination_by _ a b => sizeOf a + sizeOf b

/-- Python list comparison: skip the longest `==`-equal prefix, then compare
the first differing elements (which may raise), or the lengths. -/
def pyCmpList : CmpOp → List Value → List Value → Except PyErr Bool
  | op, [], [] => .ok (cmpTailEmpty op)
  | op, [], _ :: _ => .ok (op = .lt || op = .le)
  | op, _ :: _, [] => .ok (op = .gt || op = .ge)
  | op, x :: xs, y :: ys => if pyEq x y then pyCmpList op xs ys else pyCmp op x y
termination_by _ xs ys => sizeOf xs + sizeOf ys
end

/-- Holds when `needle` occurs as a contiguous run inside `hay` (Python `sub in s`). -/
def containsSub (needle : List Char) : List Char → Bool
  | [] => needle.isEmpty
  | c :: t => needle.isPrefixOf (c :: t) || containsSub needle t

/-- Python `x in c`: list membership via `==`, substring test for strings,
key lookup for dicts (unhashable keys raise); non-containers raise
TypeError. -/
def pyIn (x : Value) : Value → Except PyErr Bool
  | .list ys => .ok (ys.any (fun y => pyEq y x))
  | .str t =>
    match x with
    | .str s => .ok (containsSub s.toList t.toList)
    | _ => .error .raised
  | .dict kvs =>
    match x with
    | .list _ => .error .raised
    | .dict _ => .error .raised
    | .str s => .ok (kvs.any (fun kv => kv.1 == s))
    | _ => .ok false
  | _ => .error .raised

/-- Python `str.startswith(v)`: the argument must be a string (else
TypeError). -/
def pyStartsWith (s : String) : Value → Except PyErr Bool
  | .str v => .ok (v.toList.isPrefixOf s.toList)
  | _ => .error .raised

/-- Python `str.endswith(v)`: the argument must be a string (else
TypeError). -/
def pyEndsWith (s : String) : Value → Except PyErr Bool
  | .str v => .ok (v.toList.isSuffixOf s.toList)
  | _ => .error .raised

/-- Python `type(v).__name__` over the modelled universe. -/
def pyTypeName : Value → String
  | .none => "NoneType"
  | .bool _ => "bool"
  | .int _ => "int"
  | .str _ => "str"
  | .list _ => "list"
  | .dict _ => "dict"

/-- Model of `MetadataRegistry._is_indexable`: strings, ints/floats, bools and `None`
are indexable; lists and mappings are not. -/
def isIndexable : Value → Bool
  | .str _ => true
  | .int _ => true
  | .bool _ => true
  | .none => true
  | _ => false

/-! ### String-keyed dict primitives (Python insertion-ordered dicts) -/

/-- Model of `d.get(k)` / `k in d` for a string-keyed dict. -/
def sFind? {α : Type} : List (String × α) → String → Option α
  | [], _ => Option.none
  | (k', v) :: rest, k => if k' == k then some v else sFind? rest k

/-- Model of `d[k] = v`: replace in place if the key exists, else append (Python
insertion order). -/
def dictSet {α : Type} : List (String × α) → String → α → List (String × α)
  | [], k, v => [(k, v)]
  | (k', w) :: rest, k, v =>
    if k' == k then (k', v) :: rest else (k', w) :: dictSet rest k v

/-- Model of `del d[k]` (no-op when absent, callers guard with membership). -/
def dictDel {α : Type} : List (String × α) → String → List (String × α)
  | [], _ => []
  | (k', w) :: rest, k => if k' == k then rest else (k', w) :: dictDel rest k

/-- Model of `d.update(m)`: fold the entries of `m` into `d` left to right. -/
def dictUpdate {α : Type} (d m : List (String × α)) : List (String × α) :=
  m.foldl (fun d kv => dictSet d kv.1 kv.2) d

/-! ## `registry.py` — MetadataRegistry -/

/-- A file path (already normalized at manager entry). -/
abbrev PathStr := String

/-- A metadata record: the Python dict stored in the primary index.  Its
section values (`system`/`user`/`plugin`) are `.dict` values in every flow
the manager produces. -/
abbrev Record := List (String × Value)

/-- One `value → set of paths` level of a secondary index.  Keys are compared
with Python `==`, mirroring dict-key hashing (so `True` and `1` share a
bucket, as in Python). -/
abbrev ValueIndex := List (Value × Finset PathStr)

/-- One `field → value → set of paths` level of a secondary index. -/
abbrev FieldIndex := List (String × ValueIndex)

/-- Model of `self._secondary_indexes = {"system": {}, "user": {}, "plugin": {}}`. -/
structure SecondaryIndexes where
  system : FieldIndex
  user : FieldIndex
  plugin : FieldIndex

/-- Model of `section in self._secondary_indexes` plus the lookup. -/
def SecondaryIndexes.get? (idx : SecondaryIndexes) : String → Option FieldIndex
  | "system" => some idx.system
  | "user" => some idx.user
  | "plugin" => some idx.plugin
  | _ => Option.none

/-- Write back one section's field index. -/
def SecondaryIndexes.set (idx : SecondaryIndexes) (sect : String)
    (fi : FieldIndex) : SecondaryIndexes :=
  if sect = "system" then { idx with system := fi }
  else if sect = "user" then { idx with user := fi }
  else if sect = "plugin" then { idx with plugin := fi }
  else idx

/-- Find a bucket by value key (Python dict lookup via `==`). -/
def vFind? : ValueIndex → Value → Option (Finset PathStr)
  | [], _ => Option.none
  | (k, s) :: rest, v => if pyEq k v then some s else vFind? rest v

/-- Model of `if value not in field_index: field_index[value] = set()` followed by
`field_index[value].add(path)`. -/
def vInsert : ValueIndex → Value → PathStr → ValueIndex
  | [], v, p => [(v, {p})]
  | (k, s) :: rest, v, p =>
    if pyEq k v then (k, insert p s) :: rest else (k, s) :: vInsert rest v p

/-- Model of `field_index[value].discard(path)` followed by
`if not field_index[value]: del field_index[value]`; absent keys are
skipped (`if value not in field_index: continue`). -/
def vRemove : ValueIndex → Value → PathStr → ValueIndex
  | [], _, _ => []
  | (k, s) :: rest, v, p =>
    if pyEq k v then
      let s' := s.erase p
      if s' = ∅ then rest else (k, s') :: rest
    else (k, s) :: vRemove rest v p

/-- Insert `path` under `(field, value)`, creating missing levels
(`_index_metadata`, inner loop body for one indexable field). -/
def indexField : FieldIndex → PathStr → String → Value → FieldIndex
  | [], p, f, v => [(f, vInsert [] v p)]
  | (f', vi) :: rest, p, f, v =>
    if f' == f then (f', vInsert vi v p) :: rest
    else (f', vi) :: indexField rest p f v

/-- Remove `path` from the bucket of `(field, value)` and collapse empty
levels (`_remove_from_secondary_indexes`, inner loop body): absent fields
and values are skipped, the field key is deleted when its value dict
becomes empty. -/
def removeField : FieldIndex → PathStr → String → Value → FieldIndex
  | [], _, _, _ => []
  | (f', vi) :: rest, p, f, v =>
    if f' == f then
      let vi' := vRemove vi v p
      if vi'.isEmpty then rest else (f', vi') :: rest
    else (f', vi) :: removeField rest p f v

/-- Walk one section's data, indexing each indexable field value.  Python
calls `.items()` here, which would raise on a non-mapping section; the
manager stores mappings at every section, so non-dict values are
modelled as contributing nothing. -/
def indexSectionData (fi : FieldIndex) (p : PathStr) : Value → FieldIndex
  | .dict kvs =>
    kvs.foldl (fun fi kv => if isIndexable kv.2 then indexField fi p kv.1 kv.2 else fi) fi
  | _ => fi

/-- Walk one section's data, removing each indexable field value (same
non-mapping caveat as `indexSectionData`). -/
def removeSectionData (fi : FieldIndex) (p : PathStr) : Value → FieldIndex
  | .dict kvs =>
    kvs.foldl (fun fi kv => if isIndexable kv.2 then removeField fi p kv.1 kv.2 else fi) fi
  | _ => fi

/-- Model of `MetadataRegistry._index_metadata`: walk the record's sections, skipping
sections other than system/user/plugin, and index every indexable value. -/
def indexMetadata (idx : SecondaryIndexes) (p : PathStr) (meta : Record) : SecondaryIndexes :=
  meta.foldl
    (fun idx skv =>
      match idx.get? skv.1 with
      | some fi => idx.set skv.1 (indexSectionData fi p skv.2)
      | Option.none => idx)
    idx

/-- Model of `MetadataRegistry._remove_from_secondary_indexes`. -/
def removeMetadata (idx : SecondaryIndexes) (p : PathStr) (meta : Record) : SecondaryIndexes :=
  meta.foldl
    (fun idx skv =>
      match idx.get? skv.1 with
      | some fi => idx.set skv.1 (removeSectionData fi p skv.2)
      | Option.none => idx)
    idx

/-- Model of `MetadataRegistry`: primary dict `path → record` plus the secondary
indexes. -/
structure MetadataRegistry where
  primary : List (PathStr × Record)
  secondary : SecondaryIndexes

/-- A fresh registry (`__init__`). -/
def MetadataRegistry.empty : MetadataRegistry :=
  ⟨[], ⟨[], [], []⟩⟩

/-- Model of `get(path)`. -/
def MetadataRegistry.get (reg : MetadataRegistry) (p : PathStr) : Option Record :=
  sFind? reg.primary p

/-- Model of `add(path, metadata)`: writes the primary entry and indexes the record;
it does NOT remove prior secondary-index entries. -/
def MetadataRegistry.add (reg : MetadataRegistry) (p : PathStr) (meta : Record) :
    MetadataRegistry :=
  { primary := dictSet reg.primary p meta
    secondary := indexMetadata reg.secondary p meta }

/-- Model of `update(path, metadata)`: removes the secondary entries of the record
currently stored in the primary index, then writes and indexes the new
record. -/
def MetadataRegistry.update (reg : MetadataRegistry) (p : PathStr) (meta : Record) :
    MetadataRegistry :=
  let sec :=
    match reg.get p with
    | some old => removeMetadata reg.secondary p old
    | Option.none => reg.secondary
  { primary := dictSet reg.primary p meta
    secondary := indexMetadata sec p meta }

/-- Model of `remove(path)`: removes secondary entries (from the stored record) and
the primary entry; no-op when the path is unknown. -/
def MetadataRegistry.remove (reg : MetadataRegistry) (p : PathStr) : MetadataRegistry :=
  match reg.get p with
  | some old =>
    { primary := dictDel reg.primary p
      secondary := removeMetadata reg.secondary p old }
  | Option.none => reg

/-- Model of `get_all_paths()`. -/
def MetadataRegistry.getAllPaths (reg : MetadataRegistry) : List PathStr :=
  reg.primary.map Prod.fst

/-- Model of `find_by_field(section, field, value)`: three-level lookup returning a
copy of the bucket, or the empty set at any miss. -/
def MetadataRegistry.findByField (reg : MetadataRegistry) (sect field : String)
    (v : Value) : Finset PathStr :=
  match reg.secondary.get? sect with
  | Option.none => ∅
  | some fi =>
    match sFind? fi field with
    | Option.none => ∅
    | some vi => (vFind? vi v).getD ∅

/-! ## `query.py` — QueryEngine

`QueryEngine` holds the registry plus an abstract model of the Python `re`
module (an external collaborator): `reSearch pat s` is
`re.search(pat, s) is not None`, and `.error` models `re.error` on an
invalid pattern. -/

structure QueryEngine where
  registry : MetadataRegistry
  reSearch : String → String → Except PyErr Bool

/-- The keys of `self._operators`. -/
def knownOps : List String :=
  ["$eq", "$ne", "$gt", "$gte", "$lt", "$lte", "$in", "$nin", "$contains",
   "$startswith", "$endswith", "$regex", "$exists", "$type",
   "$and", "$or", "$not"]

/-- Model of `op in self._operators`. -/
def knownOp (s : String) : Bool := knownOps.contains s

/-- Test for `key.startswith("$")`, as a kernel-evaluable character test. -/
def dollarKey (key : String) : Bool := ['$'].isPrefixOf key.toList

/-- Split a character list at the first `'.'`, if any
(`key.split(".", 1)`). -/
def splitFirstDot : List Char → Option (List Char × List Char)
  | [] => Option.none
  | c :: t =>
    if c = '.' then some ([], t)
    else (splitFirstDot t).map fun ab => (c :: ab.1, ab.2)

/-- Model of `QueryEngine._parse_field`: split on the first `"."`, defaulting the
section to `user`. -/
def parseField (key : String) : String × String :=
  match splitFirstDot key.toList with
  | some ab => (String.mk ab.1, String.mk ab.2)
  | Option.none => ("user", key)

/-- The record cell a field predicate inspects: shared loop prelude of
`_filter_by_field_eq` and `_filter_by_field_op`.  `None` when the path has
no record, the record is the empty (falsy) dict, the section is missing,
or the field is missing; the manager stores mappings at every section, so
non-mapping sections are modelled as missing. -/
def fieldOpValue (reg : MetadataRegistry) (p : PathStr) (sect field : String) :
    Option Value :=
  match reg.get p with
  | Option.none => Option.none
  | some meta =>
    if meta.isEmpty then Option.none
    else
      match sFind? meta sect with
      | some (.dict kvs) => sFind? kvs field
      | _ => Option.none

/-- The per-record test of the manual-scan loop of
`_filter_by_field_eq`: the record cell exists and is `==` the value. -/
def fieldEqTest (reg : MetadataRegistry) (sect field : String) (v : Value)
    (p : PathStr) : Bool :=
  match fieldOpValue reg p sect field with
  | some fv => pyEq fv v
  | Option.none => false

/-- Model of `QueryEngine._filter_by_field_eq`: probe the inverted index for scalar
values and intersect when the bucket is non-empty; otherwise scan the
working set comparing the record cell with Python `==`. -/
def filterByFieldEq (reg : MetadataRegistry) (paths : Finset PathStr)
    (sect field : String) (v : Value) : Finset PathStr :=
  let scan := paths.filter fun p => fieldEqTest reg sect field v p
  if isIndexable v then
    let indexed := reg.findByField sect field v
    if indexed = ∅ then scan else paths ∩ indexed
  else scan

/-- All field values of a record in iteration order
(`metadata.items()` then `section_data.values()`), as walked by the
`_compare_*` helpers; the non-mapping-section caveat of `fieldOpValue`
applies. -/
def recordValues (meta : Record) : List Value :=
  meta.flatMap fun skv =>
    match skv.2 with
    | .dict kvs => kvs.map Prod.snd
    | _ => []

/-- Short-circuiting `any` whose test may raise, in list order. -/
def anyValueM (test : Value → Except PyErr Bool) : List Value → Except PyErr Bool
  | [] => .ok false
  | v :: rest => (test v).bind fun b => if b then .ok true else anyValueM test rest

/-- Model of `_compare_eq`. -/
def compareEq (meta : Record) (v : Value) : Except PyErr Bool :=
  .ok ((recordValues meta).any fun fv => pyEq fv v)

/-- Model of `_compare_ne`. -/
def compareNe (meta : Record) (v : Value) : Except PyErr Bool :=
  .ok ((recordValues meta).any fun fv => !pyEq fv v)

/-- Model of `_compare_gt/_gte/_lt/_lte`: only numeric field values are compared;
the comparison itself raises when the argument is not comparable. -/
def compareCmp (op : CmpOp) (meta : Record) (v : Value) : Except PyErr Bool :=
  anyValueM
    (fun fv =>
      match pyNum? fv with
      | some _ => pyCmp op fv v
      | Option.none => .ok false)
    (recordValues meta)

/-- Model of `_compare_in`. -/
def compareIn (meta : Record) (v : Value) : Except PyErr Bool :=
  anyValueM (fun fv => pyIn fv v) (recordValues meta)

/-- Model of `_compare_nin`. -/
def compareNin (meta : Record) (v : Value) : Except PyErr Bool :=
  anyValueM (fun fv => (pyIn fv v).map (!·)) (recordValues meta)

/-- Model of `_compare_contains`. -/
def compareContains (meta : Record) (v : Value) : Except PyErr Bool :=
  anyValueM
    (fun fv =>
      match fv with
      | .str _ => pyIn v fv
      | .list _ => pyIn v fv
      | .dict _ => pyIn v fv
      | _ => .ok false)
    (recordValues meta)

/-- Model of `_compare_startswith`. -/
def compareStartswith (meta : Record) (v : Value) : Except PyErr Bool :=
  anyValueM
    (fun fv =>
      match fv with
      | .str s => pyStartsWith s v
      | _ => .ok false)
    (recordValues meta)

/-- Model of `_compare_endswith`. -/
def compareEndswith (meta : Record) (v : Value) : Except PyErr Bool :=
  anyValueM
    (fun fv =>
      match fv with
      | .str s => pyEndsWith s v
      | _ => .ok false)
    (recordValues meta)

/-- Model of `_compare_regex`: `re.search(value, field_value)` on string field
values; a non-string pattern raises. -/
def compareRegex (eng : QueryEngine) (meta : Record) (v : Value) : Except PyErr Bool :=
  anyValueM
    (fun fv =>
      match fv with
      | .str s =>
        match v with
        | .str pat => eng.reSearch pat s
        | _ => .error .raised
      | _ => .ok false)
    (recordValues meta)

/-- Model of `_compare_exists`: `(field_value is not None) == value`. -/
def compareExists (meta : Record) (v : Value) : Except PyErr Bool :=
  .ok ((recordValues meta).any fun fv =>
    pyEq (.bool (match fv with | .none => false | _ => true)) v)

/-- Model of `_compare_type`: `value == type(field_value).__name__`. -/
def compareType (meta : Record) (v : Value) : Except PyErr Bool :=
  .ok ((recordValues meta).any fun fv => pyEq v (.str (pyTypeName fv)))

/-- Dispatch table of the `_compare_*` helpers used by the set branches of
the fourteen non-logical operators. -/
def compareTestFor (eng : QueryEngine) (op : String) (opv : Value) :
    Record → Except PyErr Bool := fun m =>
  if op = "$eq" then compareEq m opv
  else if op = "$ne" then compareNe m opv
  else if op = "$gt" then compareCmp .gt m opv
  else if op = "$gte" then compareCmp .ge m opv
  else if op = "$lt" then compareCmp .lt m opv
  else if op = "$lte" then compareCmp .le m opv
  else if op = "$in" then compareIn m opv
  else if op = "$nin" then compareNin m opv
  else if op = "$contains" then compareContains m opv
  else if op = "$startswith" then compareStartswith m opv
  else if op = "$endswith" then compareEndswith m opv
  else if op = "$regex" then compareRegex eng m opv
  else if op = "$exists" then compareExists m opv
  else if op = "$type" then compareType m opv
  else .ok false

/-- The non-set branch of each non-logical operator (`_op_eq` … `_op_type`):
`values` is the raw Python object the operator receives — for the field
path this is always the one-element list `[field_value]`. -/
def rawOpTest (eng : QueryEngine) (op : String) (values opv : Value) :
    Except PyErr Bool :=
  if op = "$eq" then .ok (pyEq values opv)
  else if op = "$ne" then .ok (!pyEq values opv)
  else if op = "$gt" then pyCmp .gt values opv
  else if op = "$gte" then pyCmp .ge values opv
  else if op = "$lt" then pyCmp .lt values opv
  else if op = "$lte" then pyCmp .le values opv
  else if op = "$in" then pyIn values opv
  else if op = "$nin" then (pyIn values opv).map (!·)
  else if op = "$contains" then pyIn opv values
  else if op = "$startswith" then
    match values with
    | .str s => pyStartsWith s opv
    | _ => .ok false
  else if op = "$endswith" then
    match values with
    | .str s => pyEndsWith s opv
    | _ => .ok false
  else if op = "$regex" then
    match values with
    | .str s =>
      match opv with
      | .str pat => eng.reSearch pat s
      | _ => .error .raised
    | _ => .ok false
  else if op = "$exists" then
    .ok (pyEq (.bool (match values with | .none => false | _ => true)) opv)
  else if op = "$type" then .ok (pyEq opv (.str (pyTypeName values)))
  else .ok false

/-! ### The degenerate inner evaluations

`_filter_by_field_op` calls `self._operators[op]([field_value], value)`.
For `$and`/`$or`/`$not` this runs the whole filter pipeline with the
one-element Python *list* `[field_value]` as the working collection, which
then flows through code expecting a set of paths: results can be lists,
sets, or plain booleans (from the non-set branch of the other operators).
`PyCol` models these working collections. -/

inductive PyCol where
  | pyList (xs : List Value)
  | pySet (xs : List Value)
  | pyBool (b : Bool)

/-- Python truthiness of a working collection.  The `pySet` element list may
contain duplicate representatives; only membership and emptiness are ever
observed. -/
def PyCol.truthy : PyCol → Bool
  | .pyList xs => !xs.isEmpty
  | .pySet xs => !xs.isEmpty
  | .pyBool b => b

/-- Model of `registry.get(x)` inside a set comprehension over arbitrary values:
unhashable keys raise, string keys can hit a record, anything else misses
(`get` returns `None` and the element is dropped). -/
def setElemTest (reg : MetadataRegistry) (test : Record → Except PyErr Bool)
    (x : Value) : Except PyErr Bool :=
  match x with
  | .list _ => .error .raised
  | .dict _ => .error .raised
  | .str s =>
    match reg.get s with
    | some m => test m
    | Option.none => .ok false
  | _ => .ok false

/-- Error-propagating filter over a list of values, in list order. -/
def filterValsM (test : Value → Except PyErr Bool) :
    List Value → Except PyErr (List Value)
  | [] => .ok []
  | x :: rest =>
    (test x).bind fun b =>
      (filterValsM test rest).map fun r => if b then x :: r else r

/-- One non-logical operator applied to a working collection
(`self._operators[op](result, value)`): the set branch runs the
`_compare_*` comprehension; lists and bools take the raw branch, which
returns a Python bool. -/
def miniRawOp (eng : QueryEngine) (op : String) (W : PyCol) (opv : Value) :
    Except PyErr PyCol :=
  match W with
  | .pySet xs =>
    (filterValsM (setElemTest eng.registry (compareTestFor eng op opv)) xs).map .pySet
  | .pyList xs => (rawOpTest eng op (.list xs) opv).map .pyBool
  | .pyBool b => (rawOpTest eng op (.bool b) opv).map .pyBool

/-- The manual-scan loop of `_filter_by_field_eq` over arbitrary working
values: unhashable registry keys raise, strings may match a record, other
values are skipped. -/
def miniFieldEqScan (reg : MetadataRegistry) (sect field : String) (v : Value) :
    List Value → Except PyErr (List Value) :=
  filterValsM fun x =>
    match x with
    | .list _ => .error .raised
    | .dict _ => .error .raised
    | .str s => .ok (fieldEqTest reg sect field v s)
    | _ => .ok false

/-- Model of `_filter_by_field_eq` over a degenerate working collection: a non-empty
index bucket is intersected (`paths.intersection` raises AttributeError on
lists and bools), otherwise the manual scan runs (iterating a bool
raises TypeError). -/
def miniFilterFieldEq (reg : MetadataRegistry) (W : PyCol)
    (sect field : String) (v : Value) : Except PyErr PyCol :=
  let scan :=
    match W with
    | .pyBool _ => Except.error PyErr.raised
    | .pyList xs => (miniFieldEqScan reg sect field v xs).map PyCol.pySet
    | .pySet xs => (miniFieldEqScan reg sect field v xs).map PyCol.pySet
  if isIndexable v then
    let indexed := reg.findByField sect field v
    if indexed = ∅ then scan
    else
      match W with
      | .pySet xs =>
        .ok (.pySet (xs.filter fun x =>
          match x with
          | .str s => decide (s ∈ indexed)
          | _ => false))
      | _ => .error .raised
  else scan

mutual
/-- Model of `_apply_filters` over a degenerate working collection; the initial
`paths.copy()` raises on a bool. -/
def miniApplyFilters (eng : QueryEngine) (W : PyCol)
    (q : List (String × Value)) : Except PyErr PyCol :=
  match W with
  | .pyBool _ => .error .raised
  | _ => miniFold eng W q
termination_by (sizeOf q, 1, 0)

/-- The entry loop of `_apply_filters` (degenerate collections). -/
def miniFold (eng : QueryEngine) (W : PyCol) :
    List (String × Value) → Except PyErr PyCol
  | [] => .ok W
  | (key, value) :: rest =>
    (miniEntry eng W key value).bind fun W' => miniFold eng W' rest
termination_by q => (sizeOf q, 0, 0)

/-- One query entry over a degenerate working collection. -/
def miniEntry (eng : QueryEngine) (W : PyCol) (key : String) (value : Value) :
    Except PyErr PyCol :=
  if dollarKey key then
    if key = "$and" then miniAnd eng W value
    else if key = "$or" then miniOr eng W value
    else if key = "$not" then miniNot eng W value
    else if knownOp key then miniRawOp eng key W value
    else .ok W
  else
    let sf := parseField key
    match value with
    | .dict kvs =>
      if kvs.all (fun kv => dollarKey kv.1) then
        miniOps eng W sf.1 sf.2 kvs
      else miniFilterFieldEq eng.registry W sf.1 sf.2 value
    | _ => miniFilterFieldEq eng.registry W sf.1 sf.2 value
termination_by (sizeOf value, 4, 0)

/-- Model of `_op_and` over a degenerate collection: iterate the conditions; Python
iterates strings and dicts too, raising on the first element unless they
are empty. -/
def miniAnd (eng : QueryEngine) (W : PyCol) (value : Value) : Except PyErr PyCol :=
  match value with
  | .list conds => miniAndFold eng W conds
  | .str s => if s.toList.isEmpty then .ok W else .error .raised
  | .dict kvs => if kvs.isEmpty then .ok W else .error .raised
  | _ => .error .raised
termination_by (sizeOf value, 3, 0)

/-- Condition fold of `_op_and` (degenerate collections). -/
def miniAndFold (eng : QueryEngine) (W : PyCol) :
    List Value → Except PyErr PyCol
  | [] => .ok W
  | c :: rest =>
    match c with
    | .dict qkvs =>
      (miniApplyFilters eng W qkvs).bind fun W' => miniAndFold eng W' rest
    | _ => .error .raised
termination_by conds => (sizeOf conds, 2, 0)

/-- Model of `_op_or` over a degenerate collection: `result = set()` then
`result.update(...)` per condition (updating with a bool raises). -/
def miniOr (eng : QueryEngine) (W : PyCol) (value : Value) : Except PyErr PyCol :=
  match value with
  | .list conds => miniOrFold eng W conds
  | .str s => if s.toList.isEmpty then .ok (.pySet []) else .error .raised
  | .dict kvs => if kvs.isEmpty then .ok (.pySet []) else .error .raised
  | _ => .error .raised
termination_by (sizeOf value, 3, 0)

/-- Condition fold of `_op_or` (degenerate collections). -/
def miniOrFold (eng : QueryEngine) (W : PyCol) :
    List Value → Except PyErr PyCol
  | [] => .ok (.pySet [])
  | c :: rest =>
    match c with
    | .dict qkvs =>
      (miniApplyFilters eng W qkvs).bind fun x =>
        (miniOrFold eng W rest).bind fun acc =>
          match x, acc with
          | .pyList xs, .pySet ys => .ok (.pySet (xs ++ ys))
          | .pySet xs, .pySet ys => .ok (.pySet (xs ++ ys))
          | _, _ => .error .raised
    | _ => .error .raised
termination_by conds => (sizeOf conds, 2, 0)

/-- Model of `_op_not` over a degenerate collection: evaluate the excluded side, then
`paths - excluded`, which only set-minus-set supports. -/
def miniNot (eng : QueryEngine) (W : PyCol) (value : Value) : Except PyErr PyCol :=
  match value with
  | .dict qkvs =>
    (miniApplyFilters eng W qkvs).bind fun ex =>
      match W, ex with
      | .pySet xs, .pySet ys =>
        .ok (.pySet (xs.filter fun x => !(ys.any (pyEq x))))
      | _, _ => .error .raised
  | _ => .error .raised
termination_by (sizeOf value, 3, 0)

/-- Field-operator filtering over a degenerate collection
(`_filter_by_field_op` reached from inside a degenerate evaluation). -/
def miniFieldOp (eng : QueryEngine) (W : PyCol) (sect field op : String)
    (opv : Value) : Except PyErr PyCol :=
  match W with
  | .pyBool _ => .error .raised
  | .pyList xs => (miniFieldOpFold eng sect field op opv xs).map .pySet
  | .pySet xs => (miniFieldOpFold eng sect field op opv xs).map .pySet
termination_by (sizeOf opv, 6, 0)

/-- Element loop of the degenerate `_filter_by_field_op`. -/
def miniFieldOpFold (eng : QueryEngine) (sect field op : String) (opv : Value) :
    List Value → Except PyErr (List Value)
  | [] => .ok []
  | x :: rest =>
    (match x with
     | .list _ => Except.error PyErr.raised
     | .dict _ => Except.error PyErr.raised
     | .str s =>
       match fieldOpValue eng.registry s sect field with
       | some fv => fieldOpTest eng op fv opv
       | Option.none => Except.ok false
     | _ => Except.ok false).bind fun b =>
      (miniFieldOpFold eng sect field op opv rest).map fun r =>
        if b then x :: r else r
termination_by xs => (sizeOf opv, 5, sizeOf xs)

/-- Operator fold within one field's operator expression (degenerate
collections): unknown operators are skipped. -/
def miniOps (eng : QueryEngine) (W : PyCol) (sect field : String) :
    List (String × Value) → Except PyErr PyCol
  | [] => .ok W
  | (op, opv) :: rest =>
    if knownOp op then
      (miniFieldOp eng W sect field op opv).bind fun W' =>
        miniOps eng W' sect field rest
    else miniOps eng W sect field rest
termination_by kvs => (sizeOf kvs, 2, 0)

/-- Model of `self._operators[op]([field_value], value)` as a truth test: the heart
of `_filter_by_field_op`.  Non-logical operators take the raw branch on
the one-element list; `$and`/`$or`/`$not` run a degenerate evaluation and
the result's truthiness decides the match. -/
def fieldOpTest (eng : QueryEngine) (op : String) (fv opv : Value) :
    Except PyErr Bool :=
  if op = "$and" then (miniAnd eng (.pyList [fv]) opv).map PyCol.truthy
  else if op = "$or" then (miniOr eng (.pyList [fv]) opv).map PyCol.truthy
  else if op = "$not" then (miniNot eng (.pyList [fv]) opv).map PyCol.truthy
  else rawOpTest eng op (.list [fv]) opv
termination_by (sizeOf opv, 4, 0)
end

/-! ### The path-set evaluator (`execute` / `_apply_filters`) -/

/-- True when `e` returned a value. -/
def exceptOk {α : Type} (e : Except PyErr α) : Bool :=
  match e with
  | .ok _ => true
  | .error _ => false

/-- True when `e` returned `true`. -/
def exceptTrue (e : Except PyErr Bool) : Bool :=
  match e with
  | .ok b => b
  | .error _ => false

/-- The per-path body of `_filter_by_field_op`: look up the record cell
(absent cells are skipped) and apply the operator test. -/
def fieldOpTestAt (eng : QueryEngine) (sect field op : String) (opv : Value)
    (p : PathStr) : Except PyErr Bool :=
  match fieldOpValue eng.registry p sect field with
  | some fv => fieldOpTest eng op fv opv
  | Option.none => .ok false

/-- Model of `QueryEngine._filter_by_field_op` on a set working set.  The Python
loop visits the set in unspecified order and raises at the first failing
element; with exception identities collapsed this is: raise iff some
element's test raises, else keep the passing elements. -/
def filterByFieldOp (eng : QueryEngine) (paths : Finset PathStr)
    (sect field op : String) (opv : Value) : Except PyErr (Finset PathStr) :=
  if ∀ p ∈ paths, exceptOk (fieldOpTestAt eng sect field op opv p) = true then
    .ok (paths.filter fun p => exceptTrue (fieldOpTestAt eng sect field op opv p))
  else .error .raised

/-- The per-path body of the set branch of `_op_eq` … `_op_type`:
`self.registry.get(path) is not None and self._compare_X(...)`. -/
def compareAt (reg : MetadataRegistry) (test : Record → Except PyErr Bool)
    (p : PathStr) : Except PyErr Bool :=
  match reg.get p with
  | some m => test m
  | Option.none => .ok false

/-- A top-level non-logical operator applied to the working set (the
`isinstance(values, set)` branch of `_op_eq` … `_op_type`); the same
order-free rendering as `filterByFieldOp`. -/
def setOpFilter (eng : QueryEngine) (op : String) (opv : Value)
    (paths : Finset PathStr) : Except PyErr (Finset PathStr) :=
  if ∀ p ∈ paths, exceptOk (compareAt eng.registry (compareTestFor eng op opv) p) = true then
    .ok (paths.filter fun p =>
      exceptTrue (compareAt eng.registry (compareTestFor eng op opv) p))
  else .error .raised

mutual
/-- Model of `QueryEngine._apply_filters`: fold the query entries left to right over
the working set. -/
def applyFilters (eng : QueryEngine) (paths : Finset PathStr) :
    List (String × Value) → Except PyErr (Finset PathStr)
  | [] => .ok paths
  | (key, value) :: rest =>
    (applyEntry eng paths key value).bind fun r => applyFilters eng r rest
termination_by q => (sizeOf q, 0)

/-- One entry of `_apply_filters`: a `$` key dispatches to the operator
table (unknown `$` keys are skipped); a field key dispatches to the
operator expression or the equality filter. -/
def applyEntry (eng : QueryEngine) (paths : Finset PathStr) (key : String)
    (value : Value) : Except PyErr (Finset PathStr) :=
  if dollarKey key then
    if key = "$and" then opAnd eng paths value
    else if key = "$or" then opOr eng paths value
    else if key = "$not" then opNot eng paths value
    else if knownOp key then setOpFilter eng key value paths
    else .ok paths
  else
    let sf := parseField key
    match value with
    | .dict kvs =>
      if kvs.all (fun kv => dollarKey kv.1) then
        applyOps eng paths sf.1 sf.2 kvs
      else .ok (filterByFieldEq eng.registry paths sf.1 sf.2 value)
    | _ => .ok (filterByFieldEq eng.registry paths sf.1 sf.2 value)
termination_by (sizeOf value, 3)

/-- The operator loop of a field's operator expression: known operators
filter the working set in turn, unknown operators are skipped. -/
def applyOps (eng : QueryEngine) (paths : Finset PathStr) (sect field : String) :
    List (String × Value) → Except PyErr (Finset PathStr)
  | [] => .ok paths
  | (op, opv) :: rest =>
    if knownOp op then
      (filterByFieldOp eng paths sect field op opv).bind fun r =>
        applyOps eng r sect field rest
    else applyOps eng paths sect field rest
termination_by kvs => (sizeOf kvs, 1)

/-- Model of `QueryEngine._op_and` on the working set. -/
def opAnd (eng : QueryEngine) (paths : Finset PathStr) (value : Value) :
    Except PyErr (Finset PathStr) :=
  match value with
  | .list conds => opAndFold eng paths conds
  | .str s => if s.toList.isEmpty then .ok paths else .error .raised
  | .dict kvs => if kvs.isEmpty then .ok paths else .error .raised
  | _ => .error .raised
termination_by (sizeOf value, 2)

/-- Condition fold of `_op_and`: each condition must be a mapping
(`condition.items()`), and the working set threads through. -/
def opAndFold (eng : QueryEngine) (paths : Finset PathStr) :
    List Value → Except PyErr (Finset PathStr)
  | [] => .ok paths
  | c :: rest =>
    match c with
    | .dict qkvs =>
      (applyFilters eng paths qkvs).bind fun r => opAndFold eng r rest
    | _ => .error .raised
termination_by conds => (sizeOf conds, 1)

/-- Model of `QueryEngine._op_or` on the working set. -/
def opOr (eng : QueryEngine) (paths : Finset PathStr) (value : Value) :
    Except PyErr (Finset PathStr) :=
  match value with
  | .list conds => opOrFold eng paths conds
  | .str s => if s.toList.isEmpty then .ok ∅ else .error .raised
  | .dict kvs => if kvs.isEmpty then .ok ∅ else .error .raised
  | _ => .error .raised
termination_by (sizeOf value, 2)

/-- Condition fold of `_op_or`: each condition is evaluated against the
same incoming working set and the results are unioned. -/
def opOrFold (eng : QueryEngine) (paths : Finset PathStr) :
    List Value → Except PyErr (Finset PathStr)
  | [] => .ok ∅
  | c :: rest =>
    match c with
    | .dict qkvs =>
      (applyFilters eng paths qkvs).bind fun r =>
        (opOrFold eng paths rest).map fun u => r ∪ u
    | _ => .error .raised
termination_by conds => (sizeOf conds, 1)

/-- Model of `QueryEngine._op_not` on the working set: evaluate the sub-query
against the working set and subtract. -/
def opNot (eng : QueryEngine) (paths : Finset PathStr) (value : Value) :
    Except PyErr (Finset PathStr) :=
  match value with
  | .dict qkvs => (applyFilters eng paths qkvs).map fun ex => paths \ ex
  | _ => .error .raised
termination_by (sizeOf value, 2)
end

/-- Model of `QueryEngine.execute`: start from `set(self.registry.get_all_paths())`
and apply the filters. -/
def QueryEngine.execute (eng : QueryEngine) (query : List (String × Value)) :
    Except PyErr (Finset PathStr) :=
  applyFilters eng eng.registry.getAllPaths.toFinset query

/-! ## `plugins.py` — PluginRegistry -/

/-- A file plugin: `supports`, `extract` (whose failure models any raised
exception) and `priority`. -/
structure Plugin where
  supports : PathStr → Bool
  extract : PathStr → Except Unit (List (String × Value))
  priority : Int

/-- Manager-level errors.  `FileAccess` and `Plugin` are the exception
classes the spec distinguishes; `raised` covers any other Python
exception. -/
inductive ManagerErr where
  | fileAccess
  | plugin
  | raised
deriving DecidableEq

/-- The host environment the manager probes: `os.path.exists`,
`get_system_metadata` (only ever called on existing paths; its result
always carries the keys built in `utils.get_system_metadata`, in
particular `"modified"`), and `normalize_path`. -/
structure Host where
  fileExists : PathStr → Bool
  stat : PathStr → List (String × Value)
  normalize : PathStr → PathStr

/-- The plugin loop of `process_file`: try each supporting plugin in list
order, merging non-empty successful extractions (`results.update`) and
recording failures. -/
def pluginFold (p : PathStr) (plugins : List Plugin) :
    List (String × Value) × Bool :=
  plugins.foldl
    (fun acc pl =>
      match pl.extract p with
      | .ok m => (if m.isEmpty then acc.1 else dictUpdate acc.1 m, acc.2)
      | .error _ => (acc.1, true))
    ([], false)

/-- Model of `PluginRegistry.process_file`: missing files raise `PluginError`; no
supporting plugin yields the empty mapping; otherwise the merge runs and
`PluginError` is raised when there were failures and the merged results
are empty (`if errors and not results`). -/
def processFile (host : Host) (plugins : List Plugin) (p : PathStr) :
    Except ManagerErr (List (String × Value)) :=
  if !host.fileExists p then .error .plugin
  else
    let supporting := plugins.filter fun pl => pl.supports p
    if supporting.isEmpty then .ok []
    else
      let rb := pluginFold p supporting
      if rb.2 && rb.1.isEmpty then .error .plugin else .ok rb.1

/-! ## `manager.py` — FileMetaManager

The manager state carries the registry, the storage backend's dict
(`MemoryDB._data`) and the registered plugins (kept sorted by descending
priority by `PluginRegistry.register`).  The `thread_safe=off` branches are
modelled; the `on` branches run the identical statements under a lock. -/

structure ManagerState where
  registry : MetadataRegistry
  storage : List (PathStr × Record)
  plugins : List Plugin

/-- A fresh manager over an empty `MemoryDB` (no auto-sync). -/
def ManagerState.empty : ManagerState :=
  ⟨MetadataRegistry.empty, [], []⟩

/-- Model of `FileMetaManager._run_plugins`: `process_file` with `PluginError`
caught and replaced by the empty mapping. -/
def runPlugins (host : Host) (st : ManagerState) (p : PathStr) :
    List (String × Value) :=
  match processFile host st.plugins p with
  | .ok m => m
  | .error _ => []

/-- Model of `FileMetaManager.add_file`: normalize, require the file to exist,
assemble `{system, user}` plus a non-empty plugin section, then
`registry.add` and `storage.save`. -/
def addFile (host : Host) (st : ManagerState) (path0 : PathStr)
    (userMeta : Option (List (String × Value))) :
    Except ManagerErr (ManagerState × Record) :=
  let path := host.normalize path0
  if !host.fileExists path then .error .fileAccess
  else
    let base : Record :=
      [("system", .dict (host.stat path)), ("user", .dict (userMeta.getD []))]
    let pm := runPlugins host st path
    let full : Record := if pm.isEmpty then base else base ++ [("plugin", .dict pm)]
    .ok
      ({ st with
          registry := st.registry.add path full
          storage := dictSet st.storage path full },
        full)

/-- Model of `FileMetaManager.get_metadata`: `registry.get` then
`if not metadata: raise FileAccessError` (the empty record is falsy). -/
def getMetadata (host : Host) (st : ManagerState) (path0 : PathStr) :
    Except ManagerErr Record :=
  let path := host.normalize path0
  match st.registry.get path with
  | some m => if m.isEmpty then .error .fileAccess else .ok m
  | Option.none => .error .fileAccess

/-- Model of `FileMetaManager.update_metadata`.  `registry.get` returns the record
object stored in the primary index and `current["user"].update(metadata)`
mutates it in place, so when `registry.update` then runs, the primary
index already holds the patched record: the removal pass walks the NEW
record.  The model makes that aliasing explicit by writing the patched
record into the primary index before calling `update`.  A record without
a mapping at `"user"` would raise (KeyError/AttributeError); the manager
always builds one. -/
def updateMetadata (host : Host) (st : ManagerState) (path0 : PathStr)
    (patch : List (String × Value)) : Except ManagerErr (ManagerState × Record) :=
  let path := host.normalize path0
  match st.registry.get path with
  | Option.none => .error .fileAccess
  | some current =>
    if current.isEmpty then .error .fileAccess
    else
      match sFind? current "user" with
      | some (.dict u) =>
        let newRec := dictSet current "user" (.dict (dictUpdate u patch))
        let reg1 : MetadataRegistry :=
          { st.registry with primary := dictSet st.registry.primary path newRec }
        .ok
          ({ st with
              registry := reg1.update path newRec
              storage := dictSet st.storage path newRec },
            newRec)
      | _ => .error .raised

/-- Model of `FileMetaManager.replace_metadata`: same shape as `update_metadata`
with `current["user"] = metadata`, and the same in-place aliasing. -/
def replaceMetadata (host : Host) (st : ManagerState) (path0 : PathStr)
    (newUser : List (String × Value)) : Except ManagerErr (ManagerState × Record) :=
  let path := host.normalize path0
  match st.registry.get path with
  | Option.none => .error .fileAccess
  | some current =>
    if current.isEmpty then .error .fileAccess
    else
      let newRec := dictSet current "user" (.dict newUser)
      let reg1 : MetadataRegistry :=
        { st.registry with primary := dictSet st.registry.primary path newRec }
      .ok
        ({ st with
            registry := reg1.update path newRec
            storage := dictSet st.storage path newRec },
          newRec)

/-- Model of `FileMetaManager.delete_metadata`: `registry.remove` plus
`storage.delete` (both no-ops on unknown paths). -/
def deleteMetadata (host : Host) (st : ManagerState) (path0 : PathStr) :
    ManagerState :=
  let path := host.normalize path0
  { st with registry := st.registry.remove path, storage := dictDel st.storage path }

/-- Model of `FileMetaManager.search`: delegate to the query engine built over the
manager's registry; `rx` is the abstract `re.search` collaborator. -/
def ManagerState.search (st : ManagerState)
    (rx : String → String → Except PyErr Bool)
    (query : List (String × Value)) : Except PyErr (Finset PathStr) :=
  QueryEngine.execute ⟨st.registry, rx⟩ query

/-- The record's `["system"]["modified"]` cell, `None` when a level is
missing (where Python would raise KeyError/TypeError; sync only reads it
on records built by the manager, which always carry it). -/
def recordModified (r : Record) : Option Value :=
  match sFind? r "system" with
  | some (.dict kvs) => sFind? kvs "modified"
  | _ => Option.none

/-- One iteration of the `_do_sync` loop over a snapshot path, threading
`(state, added, updated, removed)`.  An existing file is stat-compared on
`modified` and refreshed through the same in-place-mutation path as
`update_metadata` (`current_meta["system"] = system_meta` aliases the
stored record); a missing file is removed from registry and storage.
`.error` models the KeyError a record without `system.modified` would
raise during the comparison. -/
def syncStep (host : Host) (acc : ManagerState × Nat × Nat × Nat)
    (path : PathStr) : Except ManagerErr (ManagerState × Nat × Nat × Nat) :=
  let st := acc.1
  if host.fileExists path then
    let sysMeta := host.stat path
    match st.registry.get path with
    | Option.none => .error .raised
    | some current =>
      match recordModified current, sFind? sysMeta "modified" with
      | some oldMod, some newMod =>
        if pyEq oldMod newMod then .ok acc
        else
          let withSys := dictSet current "system" (.dict sysMeta)
          let pm := runPlugins host st path
          let newRec := if pm.isEmpty then withSys else dictSet withSys "plugin" (.dict pm)
          let reg1 : MetadataRegistry :=
            { st.registry with primary := dictSet st.registry.primary path newRec }
          .ok
            ({ st with
                registry := reg1.update path newRec
                storage := dictSet st.storage path newRec },
              acc.2.1, acc.2.2.1 + 1, acc.2.2.2)
      | _, _ => .error .raised
  else
    .ok
      ({ st with
          registry := st.registry.remove path
          storage := dictDel st.storage path },
        acc.2.1, acc.2.2.1, acc.2.2.2 + 1)

/-- Model of `FileMetaManager._do_sync`: fold the sync step over a snapshot of the
registered paths (Python iterates `set(...)` in unspecified order; the
model uses the primary insertion order — removals and updates of distinct
paths commute, so the result is order-independent).  The `added` counter
is initialised to zero and never incremented. -/
def doSync (host : Host) (st : ManagerState) :
    Except ManagerErr (ManagerState × Nat × Nat × Nat) :=
  st.registry.getAllPaths.foldlM (syncStep host) (st, 0, 0, 0)

/-! ## Scenario embeddings for concrete claims -/

/-- Extract the post-state of a manager operation (scenario glue; each use
is followed by a proof that the operation actually succeeded). -/
def stOf (e : Except ManagerErr (ManagerState × Record)) : ManagerState :=
  match e with
  | .ok sr => sr.1
  | .error _ => ManagerState.empty

/-- A host on which every path exists, stat is a fixed small system dict,
and paths are already normalized. -/
def plainHost : Host :=
  ⟨fun _ => true, fun p => [("path", .str p), ("modified", .int 1)], fun p => p⟩

/-- An `re.search` model that never matches (no scenario below reaches a
regex call). -/
def rxNone : String → String → Except PyErr Bool := fun _ _ => .ok false

/-- S4 state: add `/tmp/x` with `{"owner": "Alice"}`, then
`update_metadata(/tmp/x, {"owner": "Bob"})`. -/
def c1St : ManagerState :=
  stOf (updateMetadata plainHost
    (stOf (addFile plainHost ManagerState.empty "/tmp/x" (some [("owner", .str "Alice")])))
    "/tmp/x" [("owner", .str "Bob")])

/-- C1: after `update_metadata` replaces Alice by Bob, the record holds
Bob, yet `search({"owner": "Alice"})` still returns `{/tmp/x}` — the
in-place mutation of the record means `registry.update` removes the NEW
record's index entries instead of the old one's, leaving the stale Alice
bucket.  The claim demands that the Alice search return the empty set. -/
theorem update_metadata_leaves_stale_owner_bucket :
    c1St.registry.getAllPaths = ["/tmp/x"] ∧
    fieldOpValue c1St.registry "/tmp/x" "user" "owner" = some (.str "Bob") ∧
    c1St.search rxNone [("owner", .str "Alice")] = .ok {"/tmp/x"} ∧
    c1St.search rxNone [("owner", .str "Bob")] = .ok {"/tmp/x"} := by
  refine ⟨by rfl, by rfl, ?_, ?_⟩ <;>
    simp +decide [ManagerState.search, QueryEngine.execute, applyFilters, applyEntry,
      filterByFieldEq, fieldEqTest, fieldOpValue, c1St, stOf, updateMetadata, addFile,
      runPlugins, processFile, plainHost, ManagerState.empty,
      MetadataRegistry.empty, MetadataRegistry.add, MetadataRegistry.update,
      MetadataRegistry.get, MetadataRegistry.getAllPaths, MetadataRegistry.findByField,
      dictSet, dictUpdate, sFind?, vFind?, vInsert, vRemove, indexMetadata,
      indexSectionData, indexField, removeMetadata, removeSectionData, removeField,
      isIndexable, pyEq, parseField, splitFirstDot, dollarKey, knownOp, knownOps,
      SecondaryIndexes.get?, SecondaryIndexes.set, Except.bind,
      Finset.filter_insert, Finset.filter_singleton]

/-- S2 state: `/tmp/a.png` with `user={"w": 1920}` and `/tmp/b.png` with
`user={"w": 800}`. -/
def c2St : ManagerState :=
  stOf (addFile plainHost
    (stOf (addFile plainHost ManagerState.empty "/tmp/a.png" (some [("w", .int 1920)])))
    "/tmp/b.png" (some [("w", .int 800)]))

/-- C2: with both files registered, `search({"w": {"$gt": 1000}})` raises
(TypeError): `_filter_by_field_op` hands the operator the one-element
list `[field_value]`, and `[1920] > 1000` compares a list with an int.
The claim demands that the search return `{/tmp/a.png}` without
raising. -/
theorem gt_query_raises_on_numeric_argument :
    c2St.registry.getAllPaths = ["/tmp/a.png", "/tmp/b.png"] ∧
    fieldOpValue c2St.registry "/tmp/a.png" "user" "w" = some (.int 1920) ∧
    fieldOpValue c2St.registry "/tmp/b.png" "user" "w" = some (.int 800) ∧
    c2St.search rxNone [("w", .dict [("$gt", .int 1000)])] = .error .raised := by
  refine ⟨by rfl, by rfl, by rfl, ?_⟩
  simp +decide [ManagerState.search, QueryEngine.execute, applyFilters, applyEntry,
    applyOps, filterByFieldOp, fieldOpTestAt, fieldOpTest, rawOpTest, pyCmp, pyNum?,
    fieldOpValue, c2St, stOf, addFile, runPlugins, processFile, plainHost,
    ManagerState.empty, MetadataRegistry.empty, MetadataRegistry.add,
    MetadataRegistry.get, MetadataRegistry.getAllPaths, dictSet, sFind?,
    parseField, splitFirstDot, dollarKey, knownOp, knownOps, indexMetadata,
    indexSectionData, indexField, vInsert, isIndexable, pyEq,
    SecondaryIndexes.get?, SecondaryIndexes.set, exceptOk, exceptTrue,
    Finset.forall_mem_insert, Except.bind]

/-- S1 state: `/tmp/a.txt` with
`user={"tags": ["work", "important"], "owner": "Alice"}`. -/
def c3St : ManagerState :=
  stOf (addFile plainHost ManagerState.empty "/tmp/a.txt"
    (some [("tags", .list [.str "work", .str "important"]), ("owner", .str "Alice")]))

/-- C3: the tags list contains `"work"`, yet
`search({"tags": {"$contains": "work"}})` returns the empty set: the
operator receives `["work"] in [[...]]`-style data — `_op_contains`
checks `value in [field_value]`, i.e. equality of `"work"` against the
whole list, never membership in it.  The claim demands `{/tmp/a.txt}`. -/
theorem contains_query_misses_list_member :
    c3St.registry.getAllPaths = ["/tmp/a.txt"] ∧
    fieldOpValue c3St.registry "/tmp/a.txt" "user" "tags" =
      some (.list [.str "work", .str "important"]) ∧
    c3St.search rxNone [("tags", .dict [("$contains", .str "work")])] = .ok ∅ := by
  refine ⟨by rfl, by rfl, ?_⟩
  simp +decide [ManagerState.search, QueryEngine.execute, applyFilters, applyEntry,
    applyOps, filterByFieldOp, fieldOpTestAt, fieldOpTest, rawOpTest, pyIn, pyEq,
    pyEqList, fieldOpValue, c3St, stOf, addFile, runPlugins, processFile, plainHost,
    ManagerState.empty, MetadataRegistry.empty, MetadataRegistry.add,
    MetadataRegistry.get, MetadataRegistry.getAllPaths, dictSet, sFind?,
    parseField, splitFirstDot, dollarKey, knownOp, knownOps, indexMetadata,
    indexSectionData, indexField, vInsert, isIndexable,
    SecondaryIndexes.get?, SecondaryIndexes.set, exceptOk, exceptTrue,
    Finset.forall_mem_insert, Except.bind, Finset.filter_insert, Finset.filter_singleton]

/-- A plugin that supports every file and successfully extracts the empty
mapping. -/
def c9PluginEmptyOk : Plugin := ⟨fun _ => true, fun _ => .ok [], 0⟩

/-- A plugin that supports every file and always raises in `extract`. -/
def c9PluginFail : Plugin := ⟨fun _ => true, fun _ => .error (), 0⟩

/-- C9: `process_file` raises although one invoked plugin succeeded — a
successful `extract` returning the empty mapping leaves `results` falsy,
and `if errors and not results` then raises.  The claim says it raises
iff EVERY invoked extract raised (alone, the succeeding plugin yields the
empty mapping without error). -/
theorem process_file_raises_despite_successful_plugin :
    processFile plainHost [c9PluginEmptyOk] "/tmp/f" = .ok [] ∧
    processFile plainHost [c9PluginEmptyOk, c9PluginFail] "/tmp/f" = .error .plugin ∧
    processFile plainHost [] "/tmp/f" = .ok [] := by
  refine ⟨by rfl, by rfl, by rfl⟩

/-! ## Inverted-index monotonicity of `add` (claim C4) -/

/-- Bucket lookup inside one field index. -/
def fLook (fi : FieldIndex) (g : String) (w : Value) : Finset PathStr :=
  match sFind? fi g with
  | some vi => (vFind? vi w).getD ∅
  | Option.none => ∅

/-- Bucket lookup inside the secondary indexes. -/
def idxLookup (idx : SecondaryIndexes) (sect field : String) (v : Value) :
    Finset PathStr :=
  match idx.get? sect with
  | some fi => fLook fi field v
  | Option.none => ∅

theorem findByField_eq_idxLookup (reg : MetadataRegistry) (sect field : String)
    (v : Value) : reg.findByField sect field v = idxLookup reg.secondary sect field v := by
  unfold MetadataRegistry.findByField idxLookup fLook
  rcases h : reg.secondary.get? sect with _ | fi <;> simp
  rcases sFind? fi field with _ | vi <;> simp

theorem vInsert_mono (vi : ValueIndex) (v : Value) (p q : PathStr) (w : Value)
    (h : q ∈ (vFind? vi w).getD ∅) : q ∈ (vFind? (vInsert vi v p) w).getD ∅ := by
  induction vi with
  | nil => simp [vFind?] at h
  | cons kv rest ih =>
    obtain ⟨k, s⟩ := kv
    by_cases hk : pyEq k v = true
    · simp only [vInsert, hk, if_true]
      by_cases hw : pyEq k w = true
      · simp only [vFind?, hw, if_true, Option.getD_some] at h ⊢
        exact Finset.mem_insert_of_mem h
      · simp only [vFind?, hw, if_false] at h ⊢
        exact h
    · simp only [vInsert, hk, if_false]
      by_cases hw : pyEq k w = true
      · simp only [vFind?, hw, if_true] at h ⊢
        exact h
      · simp only [vFind?, hw, if_false] at h ⊢
        exact ih h

theorem indexField_mono (fi : FieldIndex) (p : PathStr) (f : String) (v : Value)
    (g : String) (w : Value) (q : PathStr) (h : q ∈ fLook fi g w) :
    q ∈ fLook (indexField fi p f v) g w := by
  induction fi with
  | nil => simp [fLook, sFind?] at h
  | cons kv rest ih =>
    obtain ⟨f', vi⟩ := kv
    by_cases hf : (f' == f) = true
    · simp only [indexField, hf, if_true]
      by_cases hg : (f' == g) = true
      · simp only [fLook, sFind?, hg, if_true] at h ⊢
        exact vInsert_mono vi v p q w h
      · simp only [fLook, sFind?, hg, if_false] at h ⊢
        exact h
    · simp only [indexField, hf, if_false]
      by_cases hg : (f' == g) = true
      · simp only [fLook, sFind?, hg, if_true] at h ⊢
        exact h
      · simp only [fLook, sFind?, hg, if_false] at h ⊢
        exact ih h

theorem indexSectionData_mono (kvs : List (String × Value)) (fi : FieldIndex)
    (p : PathStr) (g : String) (w : Value) (q : PathStr) (h : q ∈ fLook fi g w) :
    q ∈ fLook (indexSectionData fi p (.dict kvs)) g w := by
  induction kvs generalizing fi with
  | nil => simpa [indexSectionData] using h
  | cons kv rest ih =>
    simp only [indexSectionData, List.foldl_cons] at *
    by_cases hi : isIndexable kv.2 = true
    · simp only [hi, if_true]
      exact ih (indexField fi p kv.1 kv.2) (indexField_mono fi p kv.1 kv.2 g w q h)
    · simp only [hi, if_false]
      exact ih fi h

theorem indexSectionDataAny_mono (sd : Value) (fi : FieldIndex) (p : PathStr)
    (g : String) (w : Value) (q : PathStr) (h : q ∈ fLook fi g w) :
    q ∈ fLook (indexSectionData fi p sd) g w := by
  cases sd with
  | dict kvs => exact indexSectionData_mono kvs fi p g w q h
  | none => exact h
  | bool b => exact h
  | int n => exact h
  | str s => exact h
  | list xs => exact h

theorem get?_set_self (idx : SecondaryIndexes) (s' : String) (fi₀ fi : FieldIndex)
    (h : idx.get? s' = some fi₀) : (idx.set s' fi).get? s' = some fi := by
  unfold SecondaryIndexes.get? at h ⊢
  unfold SecondaryIndexes.set
  split at h <;> simp_all

theorem get?_set_ne (idx : SecondaryIndexes) (s' s : String) (fi : FieldIndex)
    (hne : s' ≠ s) : (idx.set s' fi).get? s = idx.get? s := by
  unfold SecondaryIndexes.set
  split_ifs with h1 h2 h3 <;> subst_vars <;>
    (unfold SecondaryIndexes.get?; split <;> simp_all)

theorem indexMetadata_mono (meta : Record) (idx : SecondaryIndexes) (p : PathStr)
    (s f : String) (v : Value) (q : PathStr) (h : q ∈ idxLookup idx s f v) :
    q ∈ idxLookup (indexMetadata idx p meta) s f v := by
  induction meta generalizing idx with
  | nil => simpa [indexMetadata] using h
  | cons skv rest ih =>
    simp only [indexMetadata, List.foldl_cons] at *
    rcases hg : idx.get? skv.1 with _ | fi
    · simp only [hg]
      exact ih idx h
    · simp only [hg]
      apply ih
      by_cases hs : skv.1 = s
      · subst hs
        unfold idxLookup at h ⊢
        rw [get?_set_self idx skv.1 fi _ hg]
        rw [hg] at h
        exact indexSectionDataAny_mono skv.2 fi p f v q h
      · unfold idxLookup at h ⊢
        rw [get?_set_ne idx skv.1 s _ hs]
        exact h

/-- C4 amended: `registry.add` never removes prior inverted-index
entries — every bucket membership survives an overwriting `add` (only
`update`/`remove` purge).  In particular a path stays indexed under
scalar values that occur only in the record the `add` replaced. -/
theorem add_preserves_prior_index_entries (reg : MetadataRegistry) (p : PathStr)
    (r : Record) (sect field : String) (v : Value) (q : PathStr)
    (h : q ∈ reg.findByField sect field v) :
    q ∈ (reg.add p r).findByField sect field v := by
  rw [findByField_eq_idxLookup] at h ⊢
  exact indexMetadata_mono r reg.secondary p sect field v q h

/-- The C4 scenario: `/tmp/x` added with owner Alice, then overwritten by
`add` with owner Bob. -/
def c4Reg : MetadataRegistry :=
  (MetadataRegistry.empty.add "/tmp/x" [("user", .dict [("owner", .str "Alice")])]).add
    "/tmp/x" [("user", .dict [("owner", .str "Bob")])]

/-- C4 counterexample: after the overwriting `add`, the record holds Bob
but the Alice bucket still contains `/tmp/x` — `add` performed no
removal, contradicting the claim that no bucket keeps the path under a
value present only in the replaced record. -/
theorem add_overwrite_keeps_stale_alice_bucket :
    c4Reg.get "/tmp/x" = some [("user", .dict [("owner", .str "Bob")])] ∧
    "/tmp/x" ∈ c4Reg.findByField "user" "owner" (.str "Alice") := by
  refine ⟨by rfl, ?_⟩
  simp +decide [c4Reg, MetadataRegistry.empty, MetadataRegistry.add,
    MetadataRegistry.findByField, indexMetadata, indexSectionData, indexField,
    vInsert, vFind?, sFind?, dictSet, isIndexable, pyEq,
    SecondaryIndexes.get?, SecondaryIndexes.set]

/-- Witness for `add_preserves_prior_index_entries` at the concrete C4
scenario. -/
theorem add_preserves_prior_index_entries_witness :
    "/tmp/x" ∈ (MetadataRegistry.empty.add "/tmp/x"
        [("user", .dict [("owner", .str "Alice")])]).findByField
        "user" "owner" (.str "Alice") ∧
    "/tmp/x" ∈ c4Reg.findByField "user" "owner" (.str "Alice") := by
  have h : "/tmp/x" ∈ (MetadataRegistry.empty.add "/tmp/x"
      [("user", .dict [("owner", .str "Alice")])]).findByField
      "user" "owner" (.str "Alice") := by
    simp +decide [MetadataRegistry.empty, MetadataRegistry.add,
      MetadataRegistry.findByField, indexMetadata, indexSectionData, indexField,
      vInsert, vFind?, sFind?, dictSet, isIndexable, pyEq,
      SecondaryIndexes.get?, SecondaryIndexes.set]
  exact ⟨h, add_preserves_prior_index_entries _ "/tmp/x"
    [("user", .dict [("owner", .str "Bob")])] "user" "owner" (.str "Alice") "/tmp/x" h⟩

/-! ## Field-level `$exists` and `$regex` (claims C5, C6) -/

theorem fieldOpTestAt_exists (eng : QueryEngine) (sect field : String) (b : Bool)
    (p : PathStr) :
    fieldOpTestAt eng sect field "$exists" (.bool b) p =
      .ok ((fieldOpValue eng.registry p sect field).isSome && b) := by
  unfold fieldOpTestAt
  rcases fieldOpValue eng.registry p sect field with _ | fv
  · simp
  · simp only [Option.isSome_some, Bool.true_and]
    show fieldOpTest eng "$exists" fv (.bool b) = .ok b
    simp +decide [fieldOpTest, rawOpTest, pyEq, pyNum?]
    cases b <;> rfl

/-- C5 amended: under a field, `$exists: b` can only see records whose
field is present (`_filter_by_field_op` skips the rest), and for those
the operator computes `True == b`.  So `$exists: true` returns exactly
the working-set paths whose resolved field is present (a present `null`
included), `$exists: false` returns the empty set, and no input
raises — records lacking the field are never matched by
`$exists: false`, contrary to the claim. -/
theorem exists_op_field_semantics (eng : QueryEngine) (S : Finset PathStr)
    (sect field : String) (b : Bool) :
    filterByFieldOp eng S sect field "$exists" (.bool b) =
      .ok (if b then
              S.filter (fun p => (fieldOpValue eng.registry p sect field).isSome)
            else ∅) := by
  unfold filterByFieldOp
  rw [if_pos]
  · congr 1
    cases b
    · simp [fieldOpTestAt_exists, exceptTrue]
    · simp [fieldOpTestAt_exists, exceptTrue]
  · intro p _
    rw [fieldOpTestAt_exists]
    rfl

/-- C5 scenario: one registered path whose user section has no field
`"f"`. -/
def c5St : ManagerState :=
  stOf (addFile plainHost ManagerState.empty "/tmp/a" (some []))

/-- C5 counterexample: the field is absent on the only registered path,
yet `search({"f": {"$exists": false}})` returns the empty set — the
claim requires exactly the absent-field records, i.e. `{/tmp/a}`. -/
theorem exists_false_excludes_absent_records :
    c5St.registry.getAllPaths = ["/tmp/a"] ∧
    fieldOpValue c5St.registry "/tmp/a" "user" "f" = Option.none ∧
    c5St.search rxNone [("f", .dict [("$exists", .bool false)])] = .ok ∅ := by
  refine ⟨by rfl, by rfl, ?_⟩
  simp +decide [ManagerState.search, QueryEngine.execute, applyFilters, applyEntry,
    applyOps, filterByFieldOp, fieldOpTestAt, fieldOpTest, rawOpTest, pyEq, pyNum?,
    fieldOpValue, c5St, stOf, addFile, runPlugins, processFile, plainHost,
    ManagerState.empty, MetadataRegistry.empty, MetadataRegistry.add,
    MetadataRegistry.get, MetadataRegistry.getAllPaths, dictSet, sFind?,
    parseField, splitFirstDot, dollarKey, knownOp, knownOps, indexMetadata,
    indexSectionData, indexField, vInsert, isIndexable,
    SecondaryIndexes.get?, SecondaryIndexes.set, exceptOk, exceptTrue,
    Finset.forall_mem_insert, Except.bind, Finset.filter_insert, Finset.filter_singleton]

/-- C6 amended: under a field, `$regex` never matches anything and never
raises: `_op_regex` receives the one-element list `[field_value]`, the
`isinstance(values, str)` guard fails, and `re.search` is never invoked —
for every registry, every working set and every pattern argument, valid
or invalid. -/
theorem regex_op_field_never_matches (eng : QueryEngine) (S : Finset PathStr)
    (sect field : String) (pat : Value) :
    filterByFieldOp eng S sect field "$regex" pat = .ok ∅ := by
  have htest : ∀ p, fieldOpTestAt eng sect field "$regex" pat p = .ok false := by
    intro p
    unfold fieldOpTestAt
    rcases fieldOpValue eng.registry p sect field with _ | fv
    · rfl
    · show fieldOpTest eng "$regex" fv pat = .ok false
      simp +decide [fieldOpTest, rawOpTest]
  unfold filterByFieldOp
  rw [if_pos]
  · simp [htest, exceptTrue]
  · intro p _
    rw [htest]
    rfl

/-- An `re.search` model with genuine substring semantics, to witness that
even a pattern that plainly matches the stored value is ignored. -/
def rxSub : String → String → Except PyErr Bool :=
  fun pat s => .ok (containsSub pat.toList s.toList)

/-- C6 scenario: one registered path with user `f = "hello"`. -/
def c6St : ManagerState :=
  stOf (addFile plainHost ManagerState.empty "/tmp/a" (some [("f", .str "hello")]))

/-- C6 counterexample: the stored string `"hello"` plainly matches the
pattern `"hello"` under the search oracle, yet
`search({"f": {"$regex": "hello"}})` returns the empty set — the claim
requires an unanchored pattern search over string field values, i.e.
`{/tmp/a}`. -/
theorem regex_query_ignores_matching_value :
    fieldOpValue c6St.registry "/tmp/a" "user" "f" = some (.str "hello") ∧
    rxSub "hello" "hello" = .ok true ∧
    c6St.search rxSub [("f", .dict [("$regex", .str "hello")])] = .ok ∅ := by
  refine ⟨by rfl, by simp +decide [rxSub, containsSub], ?_⟩
  simp +decide [ManagerState.search, QueryEngine.execute, applyFilters, applyEntry,
    applyOps, filterByFieldOp, fieldOpTestAt, fieldOpTest, rawOpTest,
    fieldOpValue, c6St, stOf, addFile, runPlugins, processFile, plainHost,
    ManagerState.empty, MetadataRegistry.empty, MetadataRegistry.add,
    MetadataRegistry.get, MetadataRegistry.getAllPaths, dictSet, sFind?,
    parseField, splitFirstDot, dollarKey, knownOp, knownOps, indexMetadata,
    indexSectionData, indexField, vInsert, isIndexable,
    SecondaryIndexes.get?, SecondaryIndexes.set, exceptOk, exceptTrue,
    Finset.forall_mem_insert, Except.bind, Finset.filter_insert, Finset.filter_singleton]

/-! ## Unknown operators are skipped (claim C10) -/

/-- C10: a top-level `$` key that is not a registered operator leaves the
working set unchanged and raises nothing; an unrecognized `$` operator
under a field is skipped inside the operator loop; and consequently
`{"$bogus": []}` returns every registered path. -/
theorem unknown_operators_are_skipped :
    (∀ (eng : QueryEngine) (S : Finset PathStr) (key : String) (value : Value),
        dollarKey key = true → knownOp key = false →
        applyEntry eng S key value = .ok S) ∧
    (∀ (eng : QueryEngine) (S : Finset PathStr) (sect field op : String)
        (opv : Value) (rest : List (String × Value)),
        knownOp op = false →
        applyOps eng S sect field ((op, opv) :: rest) = applyOps eng S sect field rest) ∧
    (∀ eng : QueryEngine,
        eng.execute [("$bogus", .list [])] = .ok eng.registry.getAllPaths.toFinset) := by
  have hentry : ∀ (eng : QueryEngine) (S : Finset PathStr) (key : String) (value : Value),
      dollarKey key = true → knownOp key = false → applyEntry eng S key value = .ok S := by
    intro eng S key value hd hk
    have hks : ¬(key = "$and") ∧ ¬(key = "$or") ∧ ¬(key = "$not") := by
      simp [knownOp, knownOps] at hk
      tauto
    unfold applyEntry
    rw [if_pos hd, if_neg hks.1, if_neg hks.2.1, if_neg hks.2.2, if_neg (by simp [hk])]
  refine ⟨hentry, ?_, ?_⟩
  · intro eng S sect field op opv rest hop
    conv_lhs => unfold applyOps
    rw [if_neg (by simp [hop])]
  · intro eng
    unfold QueryEngine.execute applyFilters
    rw [hentry eng _ "$bogus" (.list []) (by decide) (by decide)]
    simp [Except.bind, applyFilters]

/-- Witness for `unknown_operators_are_skipped` at a concrete unknown key
and a concrete engine. -/
theorem unknown_operators_are_skipped_witness :
    applyEntry ⟨MetadataRegistry.empty, rxNone⟩ {"/tmp/p"} "$weird" (.int 0) =
      .ok {"/tmp/p"} ∧
    applyOps ⟨MetadataRegistry.empty, rxNone⟩ {"/tmp/p"} "user" "f"
        [("$weird", .int 0)] =
      applyOps ⟨MetadataRegistry.empty, rxNone⟩ {"/tmp/p"} "user" "f" [] ∧
    QueryEngine.execute ⟨c2St.registry, rxNone⟩ [("$bogus", .list [])] =
      .ok {"/tmp/a.png", "/tmp/b.png"} := by
  refine ⟨unknown_operators_are_skipped.1 _ _ "$weird" (.int 0) (by decide) (by decide),
    unknown_operators_are_skipped.2.1 _ _ "user" "f" "$weird" (.int 0) [] (by decide), ?_⟩
  rw [unknown_operators_are_skipped.2.2 ⟨c2St.registry, rxNone⟩]
  rfl

/-! ## Dict lemmas for the sync proof (claim C8) -/

theorem sFind?_eq_none {α : Type} (l : List (String × α)) (k : String) :
    sFind? l k = Option.none ↔ k ∉ l.map Prod.fst := by
  induction l with
  | nil => simp [sFind?]
  | cons kv rest ih =>
    obtain ⟨k', w⟩ := kv
    by_cases h : k' = k
    · subst h
      simp [sFind?]
    · simp only [sFind?, beq_iff_eq, h, if_false, List.map_cons, List.mem_cons, ih]
      constructor
      · rintro hk (hh | hh)
        · exact h hh.symm
        · exact hk hh
      · intro hk hm
        exact hk (Or.inr hm)

theorem sFind?_dictSet_self {α : Type} (l : List (String × α)) (k : String) (v : α) :
    sFind? (dictSet l k v) k = some v := by
  induction l with
  | nil => simp [dictSet, sFind?]
  | cons kv rest ih =>
    obtain ⟨k', w⟩ := kv
    by_cases h : k' = k
    · subst h
      simp [dictSet, sFind?]
    · simp [dictSet, sFind?, h, ih]

theorem sFind?_dictSet_ne {α : Type} (l : List (String × α)) (k q : String) (v : α)
    (h : q ≠ k) : sFind? (dictSet l k v) q = sFind? l q := by
  induction l with
  | nil => simp [dictSet, sFind?, beq_iff_eq, Ne.symm h]
  | cons kv rest ih =>
    obtain ⟨k', w⟩ := kv
    by_cases hk : k' = k
    · subst hk
      simp [dictSet, sFind?, beq_iff_eq, Ne.symm h]
    · simp [dictSet, sFind?, beq_iff_eq, hk, ih]

theorem sFind?_dictDel_ne {α : Type} (l : List (String × α)) (k q : String)
    (h : q ≠ k) : sFind? (dictDel l k) q = sFind? l q := by
  induction l with
  | nil => simp [dictDel]
  | cons kv rest ih =>
    obtain ⟨k', w⟩ := kv
    by_cases hk : k' = k
    · subst hk
      simp [dictDel, sFind?, beq_iff_eq, Ne.symm h]
    · simp [dictDel, sFind?, beq_iff_eq, hk, ih]

theorem sFind?_dictDel_self {α : Type} (l : List (String × α)) (k : String)
    (hnd : (l.map Prod.fst).Nodup) : sFind? (dictDel l k) k = Option.none := by
  induction l with
  | nil => simp [dictDel, sFind?]
  | cons kv rest ih =>
    obtain ⟨k', w⟩ := kv
    simp only [List.map_cons, List.nodup_cons] at hnd
    by_cases hk : k' = k
    · subst hk
      simp only [dictDel, beq_iff_eq, if_true]
      exact (sFind?_eq_none rest k').mpr hnd.1
    · simp only [dictDel, beq_iff_eq, hk, if_false, sFind?]
      exact ih hnd.2

theorem dictSet_keys {α : Type} (l : List (String × α)) (k : String) (v : α) :
    (dictSet l k v).map Prod.fst =
      if k ∈ l.map Prod.fst then l.map Prod.fst else l.map Prod.fst ++ [k] := by
  induction l with
  | nil => simp [dictSet]
  | cons kv rest ih =>
    obtain ⟨k', w⟩ := kv
    by_cases h : k' = k
    · subst h
      simp [dictSet]
    · simp only [dictSet, beq_iff_eq, h, if_false, List.map_cons, ih, List.mem_cons]
      by_cases hm : k ∈ rest.map Prod.fst
      · simp [hm, Ne.symm h]
      · simp [hm, Ne.symm h]

theorem dictSet_keys_nodup {α : Type} (l : List (String × α)) (k : String) (v : α)
    (hnd : (l.map Prod.fst).Nodup) : ((dictSet l k v).map Prod.fst).Nodup := by
  rw [dictSet_keys]
  by_cases hm : k ∈ l.map Prod.fst
  · simpa [hm] using hnd
  · simp only [hm, if_false]
    exact List.Nodup.append hnd (List.nodup_singleton k) (by simpa using hm)

theorem dictDel_keys_sublist {α : Type} (l : List (String × α)) (k : String) :
    ((dictDel l k).map Prod.fst).Sublist (l.map Prod.fst) := by
  induction l with
  | nil => simp [dictDel]
  | cons kv rest ih =>
    obtain ⟨k', w⟩ := kv
    by_cases h : k' = k
    · subst h
      simp only [dictDel, beq_iff_eq, if_true, List.map_cons]
      exact List.sublist_cons_self k' (rest.map Prod.fst)
    · simp only [dictDel, beq_iff_eq, h, if_false, List.map_cons]
      exact ih.cons₂ k'

theorem dictDel_keys_nodup {α : Type} (l : List (String × α)) (k : String)
    (hnd : (l.map Prod.fst).Nodup) : ((dictDel l k).map Prod.fst).Nodup :=
  (dictDel_keys_sublist l k).nodup hnd

/-! ## Per-step facts about `syncStep` -/

theorem syncStep_preserves (host : Host) (s : ManagerState) (a u r : Nat)
    (path : PathStr) (out : ManagerState × Nat × Nat × Nat) (q : PathStr)
    (hq : q ≠ path) (h : syncStep host (s, a, u, r) path = .ok out) :
    out.1.registry.get q = s.registry.get q ∧
      sFind? out.1.storage q = sFind? s.storage q := by
  unfold syncStep at h
  by_cases hex : host.fileExists path = true
  · rw [if_pos hex] at h
    rcases hget : s.registry.get path with _ | current
    · simp [hget] at h
    · simp only [hget] at h
      rcases hmod : recordModified current with _ | oldMod
      · simp [hmod] at h
      · rcases hsm : sFind? (host.stat path) "modified" with _ | newMod
        · simp [hmod, hsm] at h
        · simp only [hmod, hsm] at h
          by_cases hpe : pyEq oldMod newMod = true
          · rw [if_pos hpe] at h
            cases h
            exact ⟨rfl, rfl⟩
          · rw [if_neg hpe] at h
            cases h
            refine ⟨?_, sFind?_dictSet_ne _ _ _ _ hq⟩
            show (MetadataRegistry.update _ path _).get q = _
            unfold MetadataRegistry.update MetadataRegistry.get
            simp only
            rw [sFind?_dictSet_ne _ _ _ _ hq]
            show sFind? (dictSet s.registry.primary path _) q = _
            rw [sFind?_dictSet_ne _ _ _ _ hq]
  · rw [if_neg hex] at h
    cases h
    refine ⟨?_, sFind?_dictDel_ne _ _ _ hq⟩
    show (s.registry.remove path).get q = _
    unfold MetadataRegistry.remove
    rcases s.registry.get path with _ | old
    · rfl
    · show sFind? (dictDel s.registry.primary path) q = _
      exact sFind?_dictDel_ne _ _ _ hq

theorem syncStep_nodup (host : Host) (s : ManagerState) (a u r : Nat)
    (path : PathStr) (out : ManagerState × Nat × Nat × Nat)
    (h : syncStep host (s, a, u, r) path = .ok out)
    (h1 : (s.registry.primary.map Prod.fst).Nodup)
    (h2 : (s.storage.map Prod.fst).Nodup) :
    (out.1.registry.primary.map Prod.fst).Nodup ∧
      (out.1.storage.map Prod.fst).Nodup := by
  unfold syncStep at h
  by_cases hex : host.fileExists path = true
  · rw [if_pos hex] at h
    rcases hget : s.registry.get path with _ | current
    · simp [hget] at h
    · simp only [hget] at h
      rcases hmod : recordModified current with _ | oldMod
      · simp [hmod] at h
      · rcases hsm : sFind? (host.stat path) "modified" with _ | newMod
        · simp [hmod, hsm] at h
        · simp only [hmod, hsm] at h
          by_cases hpe : pyEq oldMod newMod = true
          · rw [if_pos hpe] at h
            cases h
            exact ⟨h1, h2⟩
          · rw [if_neg hpe] at h
            cases h
            refine ⟨?_, dictSet_keys_nodup _ _ _ h2⟩
            show ((MetadataRegistry.update _ path _).primary.map Prod.fst).Nodup
            unfold MetadataRegistry.update
            exact dictSet_keys_nodup _ _ _ (dictSet_keys_nodup _ _ _ h1)
  · rw [if_neg hex] at h
    cases h
    refine ⟨?_, dictDel_keys_nodup _ _ h2⟩
    show ((MetadataRegistry.remove _ path).primary.map Prod.fst).Nodup
    unfold MetadataRegistry.remove
    rcases s.registry.get path with _ | old
    · exact h1
    · exact dictDel_keys_nodup _ _ h1

theorem syncStep_missing (host : Host) (s : ManagerState) (a u r : Nat)
    (path : PathStr) (hex : host.fileExists path = false)
    (h1 : (s.registry.primary.map Prod.fst).Nodup)
    (h2 : (s.storage.map Prod.fst).Nodup) :
    ∃ s₁ : ManagerState,
      syncStep host (s, a, u, r) path = .ok (s₁, a, u, r + 1) ∧
      s₁.registry.get path = Option.none ∧ sFind? s₁.storage path = Option.none := by
  refine ⟨_, by unfold syncStep; rw [if_neg (by simp [hex])], ?_, ?_⟩
  · show (s.registry.remove path).get path = Option.none
    unfold MetadataRegistry.remove
    rcases hget : s.registry.get path with _ | old
    · exact hget
    · show sFind? (dictDel s.registry.primary path) path = Option.none
      exact sFind?_dictDel_self _ _ h1
  · exact sFind?_dictDel_self _ _ h2

theorem syncStep_existing (host : Host) (s : ManagerState) (a u r : Nat)
    (path : PathStr) (rec : Record) (hex : host.fileExists path = true)
    (hget : s.registry.get path = some rec) (hmod : (recordModified rec).isSome)
    (hstat : (sFind? (host.stat path) "modified").isSome) :
    ∃ (s₁ : ManagerState) (du : Nat),
      syncStep host (s, a, u, r) path = .ok (s₁, a, u + du, r) := by
  unfold syncStep
  rw [if_pos hex, hget]
  rcases hm : recordModified rec with _ | oldMod
  · rw [hm] at hmod
    simp at hmod
  · rcases hs : sFind? (host.stat path) "modified" with _ | newMod
    · rw [hs] at hstat
      simp at hstat
    · simp only [hm, hs]
      by_cases hpe : pyEq oldMod newMod = true
      · exact ⟨s, 0, by rw [if_pos hpe]; rfl⟩
      · exact ⟨_, 1, by rw [if_neg hpe]⟩

theorem syncFold_preserves (host : Host) :
    ∀ (l : List PathStr) (s : ManagerState) (a u r : Nat)
      (out : ManagerState × Nat × Nat × Nat) (q : PathStr),
      List.foldlM (syncStep host) (s, a, u, r) l = .ok out → q ∉ l →
      out.1.registry.get q = s.registry.get q ∧
        sFind? out.1.storage q = sFind? s.storage q := by
  intro l
  induction l with
  | nil =>
    intro s a u r out q h _
    cases h
    exact ⟨rfl, rfl⟩
  | cons p rest ih =>
    intro s a u r out q h hq
    rw [List.foldlM_cons] at h
    rcases hstep : syncStep host (s, a, u, r) p with _ | acc₁
    · rw [hstep] at h
      cases h
    · rw [hstep] at h
      simp only [List.mem_cons, not_or] at hq
      obtain ⟨s₁, a₁, u₁, r₁⟩ := acc₁
      have hpre := syncStep_preserves host s a u r p _ q hq.1 hstep
      have := ih s₁ a₁ u₁ r₁ out q h hq.2
      exact ⟨this.1.trans hpre.1, this.2.trans hpre.2⟩

theorem syncFold_spec (host : Host) :
    ∀ (l : List PathStr) (s : ManagerState) (a u r : Nat),
      l.Nodup →
      (s.registry.primary.map Prod.fst).Nodup →
      (s.storage.map Prod.fst).Nodup →
      (∀ p ∈ l, host.fileExists p = true →
          ∃ rec, s.registry.get p = some rec ∧ (recordModified rec).isSome) →
      (∀ p, (sFind? (host.stat p) "modified").isSome) →
      ∃ (s' : ManagerState) (u' : Nat),
        List.foldlM (syncStep host) (s, a, u, r) l =
          .ok (s', a, u', r + (l.filter (fun p => !host.fileExists p)).length) ∧
        ∀ p ∈ l, host.fileExists p = false →
          s'.registry.get p = Option.none ∧ sFind? s'.storage p = Option.none := by
  intro l
  induction l with
  | nil =>
    intro s a u r _ _ _ _ _
    exact ⟨s, u, by rfl, by simp⟩
  | cons p rest ih =>
    intro s a u r hndl hnd1 hnd2 hrec hstat
    simp only [List.nodup_cons] at hndl
    by_cases hex : host.fileExists p = true
    · obtain ⟨rec, hget, hmod⟩ := hrec p (by simp) hex
      obtain ⟨s₁, du, hstep⟩ :=
        syncStep_existing host s a u r p rec hex hget hmod (hstat p)
      have hnds := syncStep_nodup host s a u r p _ hstep hnd1 hnd2
      have hpres : ∀ q, q ≠ p →
          s₁.registry.get q = s.registry.get q := by
        intro q hq
        exact (syncStep_preserves host s a u r p _ q hq hstep).1
      obtain ⟨s', u', hfold, hforall⟩ :=
        ih s₁ a (u + du) r hndl.2 hnds.1 hnds.2
          (by
            intro q hqmem hqex
            obtain ⟨rec', hget', hmod'⟩ :=
              hrec q (by simp [hqmem]) hqex
            refine ⟨rec', ?_, hmod'⟩
            rw [hpres q (fun hh => hndl.1 (hh ▸ hqmem)), hget'])
          hstat
      refine ⟨s', u', ?_, ?_⟩
      · rw [List.foldlM_cons, hstep]
        simpa [List.filter_cons, hex] using hfold
      · intro q hqmem hqex
        rcases List.mem_cons.mp hqmem with hqp | hqmem
        · rw [hqp] at hqex
          rw [hqex] at hex
          simp at hex
        · exact hforall q hqmem hqex
    · have hexf : host.fileExists p = false := by simpa using hex
      obtain ⟨s₁, hstep, hg, hs⟩ := syncStep_missing host s a u r p hexf hnd1 hnd2
      have hnds := syncStep_nodup host s a u r p _ hstep hnd1 hnd2
      have hpres : ∀ q, q ≠ p →
          s₁.registry.get q = s.registry.get q := by
        intro q hq
        exact (syncStep_preserves host s a u r p _ q hq hstep).1
      obtain ⟨s', u', hfold, hforall⟩ :=
        ih s₁ a u (r + 1) hndl.2 hnds.1 hnds.2
          (by
            intro q hqmem hqex
            obtain ⟨rec', hget', hmod'⟩ :=
              hrec q (by simp [hqmem]) hqex
            refine ⟨rec', ?_, hmod'⟩
            rw [hpres q (fun hh => hndl.1 (hh ▸ hqmem)), hget'])
          hstat
      refine ⟨s', u', ?_, ?_⟩
      · rw [List.foldlM_cons, hstep]
        show List.foldlM (syncStep host) (s₁, a, u, r + 1) rest = _
        rw [hfold]
        simp [List.filter_cons, hexf, Nat.add_assoc, Nat.add_comm 1]
      · intro q hqmem hqex
        rcases List.mem_cons.mp hqmem with hqp | hqmem
        · subst hqp
          have hkeep := syncFold_preserves host rest s₁ a u (r + 1) _ q hfold hndl.1
          exact ⟨hkeep.1.trans hg, hkeep.2.trans hs⟩
        · exact hforall q hqmem hqex

/-- C8: on any manager state with dict-shaped primary/storage (keys
unique, as Python dicts guarantee) whose records carry
`system.modified` for still-existing files, `sync()` returns counts whose
`added` component is zero and whose `removed` component counts exactly
the registered paths that no longer exist; every such path is removed
from both the registry and the storage backend, and a subsequent
`get_metadata` on it fails with `FileAccessError`. -/
theorem sync_removes_missing_files (host : Host) (st : ManagerState)
    (hnd1 : (st.registry.primary.map Prod.fst).Nodup)
    (hnd2 : (st.storage.map Prod.fst).Nodup)
    (hmod : ∀ p rec, st.registry.get p = some rec → host.fileExists p = true →
        (recordModified rec).isSome)
    (hstat : ∀ p, (sFind? (host.stat p) "modified").isSome) :
    ∃ (st' : ManagerState) (u : Nat),
      doSync host st =
        .ok (st', 0, u,
          (st.registry.getAllPaths.filter fun p => !host.fileExists p).length) ∧
      ∀ p ∈ st.registry.getAllPaths, host.fileExists p = false →
        st'.registry.get p = Option.none ∧ sFind? st'.storage p = Option.none ∧
        (host.normalize p = p → getMetadata host st' p = .error .fileAccess) := by
  obtain ⟨s', u', hfold, hforall⟩ :=
    syncFold_spec host st.registry.getAllPaths st 0 0 0 hnd1 hnd1 hnd2
      (by
        intro p hp hex
        rcases hget : st.registry.get p with _ | rec
        · exact absurd hp ((sFind?_eq_none st.registry.primary p).mp hget)
        · exact ⟨rec, rfl, hmod p rec hget hex⟩)
      hstat
  refine ⟨s', u', ?_, ?_⟩
  · show List.foldlM (syncStep host) (st, 0, 0, 0) st.registry.getAllPaths = _
    rw [hfold]
    simp
  · intro p hp hex
    obtain ⟨hg, hs⟩ := hforall p hp hex
    refine ⟨hg, hs, ?_⟩
    intro hnp
    unfold getMetadata
    rw [hnp]
    simp only [hg]

/-- S6 state: `/tmp/f` added while it existed. -/
def c8St : ManagerState :=
  stOf (addFile plainHost ManagerState.empty "/tmp/f" (some []))

/-- The host after `/tmp/f` was deleted on disk. -/
def c8HostGone : Host :=
  ⟨fun _ => false, plainHost.stat, fun p => p⟩

/-- Witness for `sync_removes_missing_files` on scenario S6: sync returns
`{added: 0, updated: 0, removed: 1}` and `get_metadata(/tmp/f)` then
fails with `FileAccessError`. -/
theorem sync_removes_missing_files_witness :
    (∃ (st' : ManagerState) (u : Nat),
      doSync c8HostGone c8St =
        .ok (st', 0, u,
          (c8St.registry.getAllPaths.filter fun p => !c8HostGone.fileExists p).length) ∧
      ∀ p ∈ c8St.registry.getAllPaths, c8HostGone.fileExists p = false →
        st'.registry.get p = Option.none ∧ sFind? st'.storage p = Option.none ∧
        (c8HostGone.normalize p = p → getMetadata c8HostGone st' p = .error .fileAccess)) ∧
    (c8St.registry.getAllPaths.filter fun p => !c8HostGone.fileExists p).length = 1 ∧
    (∃ st' : ManagerState, doSync c8HostGone c8St = .ok (st', 0, 0, 1)) := by
  refine ⟨sync_removes_missing_files c8HostGone c8St (by decide) (by decide)
      (by intro p rec _ hex; simp [c8HostGone] at hex) (by intro p; rfl),
    by rfl, ⟨_, by rfl⟩⟩

/-! ## Query-evaluator structure lemmas (claim C7) -/

theorem filterByFieldEq_subset (reg : MetadataRegistry) (S : Finset PathStr)
    (sect field : String) (v : Value) : filterByFieldEq reg S sect field v ⊆ S := by
  unfold filterByFieldEq
  dsimp only
  split_ifs <;>
    first
    | exact Finset.filter_subset _ _
    | exact Finset.inter_subset_left

theorem filterByFieldOp_ok (eng : QueryEngine) (S : Finset PathStr)
    (sect field op : String) (opv : Value) (R : Finset PathStr)
    (h : filterByFieldOp eng S sect field op opv = .ok R) :
    R = S.filter (fun p => exceptTrue (fieldOpTestAt eng sect field op opv p)) := by
  unfold filterByFieldOp at h
  split_ifs at h
  cases h
  rfl

theorem setOpFilter_ok (eng : QueryEngine) (op : String) (opv : Value)
    (S R : Finset PathStr) (h : setOpFilter eng op opv S = .ok R) :
    R = S.filter (fun p =>
      exceptTrue (compareAt eng.registry (compareTestFor eng op opv) p)) := by
  unfold setOpFilter at h
  split_ifs at h
  cases h
  rfl

theorem applyOps_subset (eng : QueryEngine) (sect field : String) :
    ∀ (kvs : List (String × Value)) (S R : Finset PathStr),
      applyOps eng S sect field kvs = .ok R → R ⊆ S := by
  intro kvs
  induction kvs with
  | nil =>
    intro S R h
    unfold applyOps at h
    cases h
    exact Finset.Subset.refl _
  | cons kv rest ih =>
    intro S R h
    obtain ⟨op, opv⟩ := kv
    unfold applyOps at h
    by_cases hop : knownOp op = true
    · rw [if_pos hop] at h
      rcases hT : filterByFieldOp eng S sect field op opv with _ | T
      · rw [hT] at h
        cases h
      · rw [hT] at h
        have hsub : T ⊆ S := by
          rw [filterByFieldOp_ok eng S sect field op opv T hT]
          exact Finset.filter_subset _ _
        exact (ih T R h).trans hsub
    · rw [if_neg hop] at h
      exact ih S R h

/-- The set-intersection composition step shared by `$and`-style folding:
if both halves satisfy the two-set exchange property and are
subset-bounded, so does their composition. -/
theorem interExchange_compose {A A' R R' S S' : Finset PathStr}
    (hA : A ⊆ S) (hA' : A' ⊆ S') (hR : R ⊆ A) (hR' : R' ⊆ A')
    (h1 : A ∩ S' = A' ∩ S) (h2 : R ∩ A' = R' ∩ A) : R ∩ S' = R' ∩ S := by
  ext x
  simp only [Finset.mem_inter]
  constructor
  · rintro ⟨hxR, hxS'⟩
    have hxA : x ∈ A := hR hxR
    have hxA' : x ∈ A' := by
      have : x ∈ A ∩ S' := Finset.mem_inter.mpr ⟨hxA, hxS'⟩
      rw [h1] at this
      exact (Finset.mem_inter.mp this).1
    have : x ∈ R ∩ A' := Finset.mem_inter.mpr ⟨hxR, hxA'⟩
    rw [h2] at this
    exact ⟨(Finset.mem_inter.mp this).1, hA hxA⟩
  · rintro ⟨hxR', hxS⟩
    have hxA' : x ∈ A' := hR' hxR'
    have hxA : x ∈ A := by
      have : x ∈ A' ∩ S := Finset.mem_inter.mpr ⟨hxA', hxS⟩
      rw [← h1] at this
      exact (Finset.mem_inter.mp this).1
    have : x ∈ R' ∩ A := Finset.mem_inter.mpr ⟨hxR', hxA⟩
    rw [← h2] at this
    exact ⟨(Finset.mem_inter.mp this).1, hA' hxA'⟩

/-- Exchange for a shared filter predicate. -/
theorem interExchange_filter (S S' : Finset PathStr) (t : PathStr → Bool) :
    S.filter (fun p => t p) ∩ S' = S'.filter (fun p => t p) ∩ S := by
  ext x
  simp only [Finset.mem_inter, Finset.mem_filter]
  tauto

/-- Exchange passes through subtraction. -/
theorem interExchange_sdiff {E F : Finset PathStr} (S T : Finset PathStr)
    (hE : E ⊆ S) (hF : F ⊆ T) (h : E ∩ T = F ∩ S) :
    (S \ E) ∩ T = (T \ F) ∩ S := by
  ext x
  simp only [Finset.mem_inter, Finset.mem_sdiff]
  constructor
  · rintro ⟨⟨hxS, hxE⟩, hxT⟩
    refine ⟨⟨hxT, fun hxF => ?_⟩, hxS⟩
    have : x ∈ F ∩ S := Finset.mem_inter.mpr ⟨hxF, hxS⟩
    rw [← h] at this
    exact hxE (Finset.mem_inter.mp this).1
  · rintro ⟨⟨hxT, hxF⟩, hxS⟩
    refine ⟨⟨hxS, fun hxE => ?_⟩, hxT⟩
    have : x ∈ E ∩ T := Finset.mem_inter.mpr ⟨hxE, hxT⟩
    rw [h] at this
    exact hxF (Finset.mem_inter.mp this).1

/-- Exchange passes through union. -/
theorem interExchange_union {R R' u u' : Finset PathStr} (S S' : Finset PathStr)
    (h1 : R ∩ S' = R' ∩ S) (h2 : u ∩ S' = u' ∩ S) :
    (R ∪ u) ∩ S' = (R' ∪ u') ∩ S := by
  rw [Finset.union_inter_distrib_right, Finset.union_inter_distrib_right, h1, h2]

theorem bindOk {α β : Type} {e : Except PyErr α} {f : α → Except PyErr β}
    {R : β} (h : e.bind f = .ok R) : ∃ A, e = .ok A ∧ f A = .ok R := by
  cases e with
  | error err => simp [Except.bind] at h
  | ok A => exact ⟨A, rfl, by simpa [Except.bind] using h⟩

theorem mapOk {α β : Type} {e : Except PyErr α} {g : α → β} {R : β}
    (h : e.map g = .ok R) : ∃ A, e = .ok A ∧ g A = R := by
  cases e with
  | error err => simp [Except.map] at h
  | ok A =>
    refine ⟨A, rfl, ?_⟩
    simpa [Except.map] using h

/-- Subset boundedness of every evaluator stage: an `.ok` result is a
subset of the incoming working set.  Proved jointly by strong induction
on the size of the query fragment. -/
theorem subsetAux (eng : QueryEngine) : ∀ n : Nat,
    (∀ (S : Finset PathStr) (q : List (String × Value)) (R : Finset PathStr),
        sizeOf q ≤ n → applyFilters eng S q = .ok R → R ⊆ S) ∧
    (∀ (S : Finset PathStr) (k : String) (v : Value) (R : Finset PathStr),
        sizeOf v ≤ n → applyEntry eng S k v = .ok R → R ⊆ S) ∧
    (∀ (S : Finset PathStr) (v : Value) (R : Finset PathStr),
        sizeOf v ≤ n → opAnd eng S v = .ok R → R ⊆ S) ∧
    (∀ (S : Finset PathStr) (conds : List Value) (R : Finset PathStr),
        sizeOf conds ≤ n → opAndFold eng S conds = .ok R → R ⊆ S) ∧
    (∀ (S : Finset PathStr) (v : Value) (R : Finset PathStr),
        sizeOf v ≤ n → opOr eng S v = .ok R → R ⊆ S) ∧
    (∀ (S : Finset PathStr) (conds : List Value) (R : Finset PathStr),
        sizeOf conds ≤ n → opOrFold eng S conds = .ok R → R ⊆ S) ∧
    (∀ (S : Finset PathStr) (v : Value) (R : Finset PathStr),
        sizeOf v ≤ n → opNot eng S v = .ok R → R ⊆ S) := by
  intro n
  induction n using Nat.strong_induction_on with
  | _ n ih =>
  have hFold : ∀ (S : Finset PathStr) (conds : List Value) (R : Finset PathStr),
      sizeOf conds ≤ n → opAndFold eng S conds = .ok R → R ⊆ S := by
    intro S conds R hsz h
    cases conds with
    | nil =>
      unfold opAndFold at h
      cases h
      exact Finset.Subset.refl _
    | cons c rest =>
      cases c with
      | dict qkvs =>
        unfold opAndFold at h
        obtain ⟨A, hA, hrest⟩ := bindOk h
        have s1 : sizeOf qkvs < n := by
          have : sizeOf (Value.dict qkvs) ≤ sizeOf (Value.dict qkvs :: rest) := by
            simp
            omega
          simp at hsz ⊢
          omega
        have s2 : sizeOf rest < n := by
          simp at hsz
          omega
        have hAS : A ⊆ S := (ih (sizeOf qkvs) s1).1 S qkvs A (le_refl _) hA
        have hRA : R ⊆ A := (ih (sizeOf rest) s2).2.2.2.1 A rest R (le_refl _) hrest
        exact hRA.trans hAS
      | none => unfold opAndFold at h; cases h
      | bool b => unfold opAndFold at h; cases h
      | int m => unfold opAndFold at h; cases h
      | str t => unfold opAndFold at h; cases h
      | list xs => unfold opAndFold at h; cases h
  have hOrFold : ∀ (S : Finset PathStr) (conds : List Value) (R : Finset PathStr),
      sizeOf conds ≤ n → opOrFold eng S conds = .ok R → R ⊆ S := by
    intro S conds R hsz h
    cases conds with
    | nil =>
      unfold opOrFold at h
      cases h
      exact Finset.empty_subset _
    | cons c rest =>
      cases c with
      | dict qkvs =>
        unfold opOrFold at h
        obtain ⟨A, hA, hrest⟩ := bindOk h
        obtain ⟨u, hu, hRu⟩ := mapOk hrest
        have s1 : sizeOf qkvs < n := by
          simp at hsz
          omega
        have s2 : sizeOf rest < n := by
          simp at hsz
          omega
        have hAS : A ⊆ S := (ih (sizeOf qkvs) s1).1 S qkvs A (le_refl _) hA
        have huS : u ⊆ S := (ih (sizeOf rest) s2).2.2.2.2.2.1 S rest u (le_refl _) hu
        rw [← hRu]
        exact Finset.union_subset hAS huS
      | none => unfold opOrFold at h; cases h
      | bool b => unfold opOrFold at h; cases h
      | int m => unfold opOrFold at h; cases h
      | str t => unfold opOrFold at h; cases h
      | list xs => unfold opOrFold at h; cases h
  have hAnd : ∀ (S : Finset PathStr) (v : Value) (R : Finset PathStr),
      sizeOf v ≤ n → opAnd eng S v = .ok R → R ⊆ S := by
    intro S v R hsz h
    cases v with
    | list conds =>
      unfold opAnd at h
      have s1 : sizeOf conds ≤ n := by
        simp at hsz
        omega
      exact hFold S conds R s1 h
    | str t =>
      unfold opAnd at h
      split_ifs at h
      cases h
      exact Finset.Subset.refl _
    | dict kvs =>
      unfold opAnd at h
      split_ifs at h
      cases h
      exact Finset.Subset.refl _
    | none => unfold opAnd at h; cases h
    | bool b => unfold opAnd at h; cases h
    | int m => unfold opAnd at h; cases h
  have hOr : ∀ (S : Finset PathStr) (v : Value) (R : Finset PathStr),
      sizeOf v ≤ n → opOr eng S v = .ok R → R ⊆ S := by
    intro S v R hsz h
    cases v with
    | list conds =>
      unfold opOr at h
      have s1 : sizeOf conds ≤ n := by
        simp at hsz
        omega
      exact hOrFold S conds R s1 h
    | str t =>
      unfold opOr at h
      split_ifs at h
      cases h
      exact Finset.empty_subset _
    | dict kvs =>
      unfold opOr at h
      split_ifs at h
      cases h
      exact Finset.empty_subset _
    | none => unfold opOr at h; cases h
    | bool b => unfold opOr at h; cases h
    | int m => unfold opOr at h; cases h
  have hNot : ∀ (S : Finset PathStr) (v : Value) (R : Finset PathStr),
      sizeOf v ≤ n → opNot eng S v = .ok R → R ⊆ S := by
    intro S v R hsz h
    cases v with
    | dict qkvs =>
      unfold opNot at h
      obtain ⟨E, _, hRE⟩ := mapOk h
      rw [← hRE]
      exact Finset.sdiff_subset
    | none => unfold opNot at h; cases h
    | bool b => unfold opNot at h; cases h
    | int m => unfold opNot at h; cases h
    | str t => unfold opNot at h; cases h
    | list xs => unfold opNot at h; cases h
  have hEntry : ∀ (S : Finset PathStr) (k : String) (v : Value) (R : Finset PathStr),
      sizeOf v ≤ n → applyEntry eng S k v = .ok R → R ⊆ S := by
    intro S k v R hsz h
    unfold applyEntry at h
    by_cases hd : dollarKey k = true
    · rw [if_pos hd] at h
      by_cases h1 : k = "$and"
      · rw [if_pos h1] at h
        exact hAnd S v R hsz h
      · rw [if_neg h1] at h
        by_cases h2 : k = "$or"
        · rw [if_pos h2] at h
          exact hOr S v R hsz h
        · rw [if_neg h2] at h
          by_cases h3 : k = "$not"
          · rw [if_pos h3] at h
            exact hNot S v R hsz h
          · rw [if_neg h3] at h
            by_cases h4 : knownOp k = true
            · rw [if_pos h4] at h
              rw [setOpFilter_ok eng k v S R h]
              exact Finset.filter_subset _ _
            · rw [if_neg h4] at h
              cases h
              exact Finset.Subset.refl _
    · rw [if_neg hd] at h
      cases v with
      | dict kvs =>
        by_cases hall : (kvs.all fun kv => dollarKey kv.1) = true
        · simp only [if_pos hall] at h
          exact applyOps_subset eng _ _ kvs S R h
        · simp only [if_neg hall] at h
          cases h
          exact filterByFieldEq_subset _ _ _ _ _
      | none => cases h; exact filterByFieldEq_subset _ _ _ _ _
      | bool b => cases h; exact filterByFieldEq_subset _ _ _ _ _
      | int m => cases h; exact filterByFieldEq_subset _ _ _ _ _
      | str t => cases h; exact filterByFieldEq_subset _ _ _ _ _
      | list xs => cases h; exact filterByFieldEq_subset _ _ _ _ _
  refine ⟨?_, hEntry, hAnd, hFold, hOr, hOrFold, hNot⟩
  intro S q R hsz h
  cases q with
  | nil =>
    unfold applyFilters at h
    cases h
    exact Finset.Subset.refl _
  | cons kv rest =>
    obtain ⟨k, v⟩ := kv
    unfold applyFilters at h
    obtain ⟨A, hA, hrest⟩ := bindOk h
    have s1 : sizeOf v ≤ n := by
      simp at hsz
      omega
    have s2 : sizeOf rest < n := by
      simp at hsz
      omega
    have hAS : A ⊆ S := hEntry S k v A s1 hA
    have hRA : R ⊆ A := (ih (sizeOf rest) s2).1 A rest R (le_refl _) hrest
    exact hRA.trans hAS

/-- An `.ok` result of `_apply_filters` is a subset of the incoming
working set. -/
theorem applyFilters_subset (eng : QueryEngine) (S : Finset PathStr)
    (q : List (String × Value)) (R : Finset PathStr)
    (h : applyFilters eng S q = .ok R) : R ⊆ S :=
  (subsetAux eng (sizeOf q)).1 S q R (le_refl _) h

theorem applyEntry_subset (eng : QueryEngine) (S : Finset PathStr) (k : String)
    (v : Value) (R : Finset PathStr) (h : applyEntry eng S k v = .ok R) : R ⊆ S :=
  (subsetAux eng (sizeOf v)).2.1 S k v R (le_refl _) h

theorem opAndFold_subset (eng : QueryEngine) (S : Finset PathStr)
    (conds : List Value) (R : Finset PathStr) (h : opAndFold eng S conds = .ok R) :
    R ⊆ S :=
  (subsetAux eng (sizeOf conds)).2.2.2.1 S conds R (le_refl _) h

theorem opOrFold_subset (eng : QueryEngine) (S : Finset PathStr)
    (conds : List Value) (R : Finset PathStr) (h : opOrFold eng S conds = .ok R) :
    R ⊆ S :=
  (subsetAux eng (sizeOf conds)).2.2.2.2.2.1 S conds R (le_refl _) h

theorem filterByFieldEq_exchange (reg : MetadataRegistry) (S S' : Finset PathStr)
    (sect field : String) (v : Value) :
    filterByFieldEq reg S sect field v ∩ S' =
      filterByFieldEq reg S' sect field v ∩ S := by
  unfold filterByFieldEq
  dsimp only
  split_ifs
  · exact interExchange_filter S S' _
  · ext x
    simp only [Finset.mem_inter]
    tauto
  · exact interExchange_filter S S' _

theorem applyOps_exchange (eng : QueryEngine) (sect field : String) :
    ∀ (kvs : List (String × Value)) (S S' R R' : Finset PathStr),
      applyOps eng S sect field kvs = .ok R →
      applyOps eng S' sect field kvs = .ok R' →
      R ∩ S' = R' ∩ S := by
  intro kvs
  induction kvs with
  | nil =>
    intro S S' R R' h h'
    unfold applyOps at h h'
    cases h
    cases h'
    exact Finset.inter_comm _ _
  | cons kv rest ih =>
    intro S S' R R' h h'
    obtain ⟨op, opv⟩ := kv
    unfold applyOps at h h'
    by_cases hop : knownOp op = true
    · rw [if_pos hop] at h h'
      obtain ⟨T, hT, hrest⟩ := bindOk h
      obtain ⟨T', hT', hrest'⟩ := bindOk h'
      have hTf := filterByFieldOp_ok eng S sect field op opv T hT
      have hTf' := filterByFieldOp_ok eng S' sect field op opv T' hT'
      refine interExchange_compose ?_ ?_ ?_ ?_ ?_ (ih T T' R R' hrest hrest')
      · rw [hTf]
        exact Finset.filter_subset _ _
      · rw [hTf']
        exact Finset.filter_subset _ _
      · exact applyOps_subset eng sect field rest T R hrest
      · exact applyOps_subset eng sect field rest T' R' hrest'
      · rw [hTf, hTf']
        exact interExchange_filter S S' _
    · rw [if_neg hop] at h h'
      exact ih S S' R R' h h'

/-- The working-set exchange property, proved jointly for every evaluator
stage by strong induction on query size: the set of paths a query
fragment keeps does not depend on the incoming working set beyond
membership, even when the inverted index disagrees with the records. -/
theorem exchAux (eng : QueryEngine) : ∀ n : Nat,
    (∀ (S S' : Finset PathStr) (q : List (String × Value)) (R R' : Finset PathStr),
        sizeOf q ≤ n → applyFilters eng S q = .ok R →
        applyFilters eng S' q = .ok R' → R ∩ S' = R' ∩ S) ∧
    (∀ (S S' : Finset PathStr) (k : String) (v : Value) (R R' : Finset PathStr),
        sizeOf v ≤ n → applyEntry eng S k v = .ok R →
        applyEntry eng S' k v = .ok R' → R ∩ S' = R' ∩ S) ∧
    (∀ (S S' : Finset PathStr) (v : Value) (R R' : Finset PathStr),
        sizeOf v ≤ n → opAnd eng S v = .ok R →
        opAnd eng S' v = .ok R' → R ∩ S' = R' ∩ S) ∧
    (∀ (S S' : Finset PathStr) (conds : List Value) (R R' : Finset PathStr),
        sizeOf conds ≤ n → opAndFold eng S conds = .ok R →
        opAndFold eng S' conds = .ok R' → R ∩ S' = R' ∩ S) ∧
    (∀ (S S' : Finset PathStr) (v : Value) (R R' : Finset PathStr),
        sizeOf v ≤ n → opOr eng S v = .ok R →
        opOr eng S' v = .ok R' → R ∩ S' = R' ∩ S) ∧
    (∀ (S S' : Finset PathStr) (conds : List Value) (R R' : Finset PathStr),
        sizeOf conds ≤ n → opOrFold eng S conds = .ok R →
        opOrFold eng S' conds = .ok R' → R ∩ S' = R' ∩ S) ∧
    (∀ (S S' : Finset PathStr) (v : Value) (R R' : Finset PathStr),
        sizeOf v ≤ n → opNot eng S v = .ok R →
        opNot eng S' v = .ok R' → R ∩ S' = R' ∩ S) := by
  intro n
  induction n using Nat.strong_induction_on with
  | _ n ih =>
  have hFold : ∀ (S S' : Finset PathStr) (conds : List Value) (R R' : Finset PathStr),
      sizeOf conds ≤ n → opAndFold eng S conds = .ok R →
      opAndFold eng S' conds = .ok R' → R ∩ S' = R' ∩ S := by
    intro S S' conds R R' hsz h h'
    cases conds with
    | nil =>
      unfold opAndFold at h h'
      cases h
      cases h'
      exact Finset.inter_comm _ _
    | cons c rest =>
      cases c with
      | dict qkvs =>
        unfold opAndFold at h h'
        obtain ⟨A, hA, hrest⟩ := bindOk h
        obtain ⟨A', hA', hrest'⟩ := bindOk h'
        have s1 : sizeOf qkvs < n := by
          simp at hsz
          omega
        have s2 : sizeOf rest < n := by
          simp at hsz
          omega
        refine interExchange_compose
          (applyFilters_subset eng S qkvs A hA)
          (applyFilters_subset eng S' qkvs A' hA')
          (opAndFold_subset eng A rest R hrest)
          (opAndFold_subset eng A' rest R' hrest')
          ((ih (sizeOf qkvs) s1).1 S S' qkvs A A' (le_refl _) hA hA')
          ((ih (sizeOf rest) s2).2.2.2.1 A A' rest R R' (le_refl _) hrest hrest')
      | none => unfold opAndFold at h; cases h
      | bool b => unfold opAndFold at h; cases h
      | int m => unfold opAndFold at h; cases h
      | str t => unfold opAndFold at h; cases h
      | list xs => unfold opAndFold at h; cases h
  have hOrFold : ∀ (S S' : Finset PathStr) (conds : List Value) (R R' : Finset PathStr),
      sizeOf conds ≤ n → opOrFold eng S conds = .ok R →
      opOrFold eng S' conds = .ok R' → R ∩ S' = R' ∩ S := by
    intro S S' conds R R' hsz h h'
    cases conds with
    | nil =>
      unfold opOrFold at h h'
      cases h
      cases h'
      simp
    | cons c rest =>
      cases c with
      | dict qkvs =>
        unfold opOrFold at h h'
        obtain ⟨A, hA, hrest⟩ := bindOk h
        obtain ⟨u, hu, hRu⟩ := mapOk hrest
        obtain ⟨A', hA', hrest'⟩ := bindOk h'
        obtain ⟨u', hu', hRu'⟩ := mapOk hrest'
        have s1 : sizeOf qkvs < n := by
          simp at hsz
          omega
        have s2 : sizeOf rest < n := by
          simp at hsz
          omega
        rw [← hRu, ← hRu']
        exact interExchange_union S S'
          ((ih (sizeOf qkvs) s1).1 S S' qkvs A A' (le_refl _) hA hA')
          ((ih (sizeOf rest) s2).2.2.2.2.2.1 S S' rest u u' (le_refl _) hu hu')
      | none => unfold opOrFold at h; cases h
      | bool b => unfold opOrFold at h; cases h
      | int m => unfold opOrFold at h; cases h
      | str t => unfold opOrFold at h; cases h
      | list xs => unfold opOrFold at h; cases h
  have hAnd : ∀ (S S' : Finset PathStr) (v : Value) (R R' : Finset PathStr),
      sizeOf v ≤ n → opAnd eng S v = .ok R →
      opAnd eng S' v = .ok R' → R ∩ S' = R' ∩ S := by
    intro S S' v R R' hsz h h'
    cases v with
    | list conds =>
      unfold opAnd at h h'
      have s1 : sizeOf conds ≤ n := by
        simp at hsz
        omega
      exact hFold S S' conds R R' s1 h h'
    | str t =>
      unfold opAnd at h h'
      split_ifs at h h'
      cases h
      cases h'
      exact Finset.inter_comm _ _
    | dict kvs =>
      unfold opAnd at h h'
      split_ifs at h h'
      cases h
      cases h'
      exact Finset.inter_comm _ _
    | none => unfold opAnd at h; cases h
    | bool b => unfold opAnd at h; cases h
    | int m => unfold opAnd at h; cases h
  have hOr : ∀ (S S' : Finset PathStr) (v : Value) (R R' : Finset PathStr),
      sizeOf v ≤ n → opOr eng S v = .ok R →
      opOr eng S' v = .ok R' → R ∩ S' = R' ∩ S := by
    intro S S' v R R' hsz h h'
    cases v with
    | list conds =>
      unfold opOr at h h'
      have s1 : sizeOf conds ≤ n := by
        simp at hsz
        omega
      exact hOrFold S S' conds R R' s1 h h'
    | str t =>
      unfold opOr at h h'
      split_ifs at h h'
      cases h
      cases h'
      simp
    | dict kvs =>
      unfold opOr at h h'
      split_ifs at h h'
      cases h
      cases h'
      simp
    | none => unfold opOr at h; cases h
    | bool b => unfold opOr at h; cases h
    | int m => unfold opOr at h; cases h
  have hNot : ∀ (S S' : Finset PathStr) (v : Value) (R R' : Finset PathStr),
      sizeOf v ≤ n → opNot eng S v = .ok R →
      opNot eng S' v = .ok R' → R ∩ S' = R' ∩ S := by
    intro S S' v R R' hsz h h'
    cases v with
    | dict qkvs =>
      unfold opNot at h h'
      obtain ⟨E, hE, hRE⟩ := mapOk h
      obtain ⟨E', hE', hRE'⟩ := mapOk h'
      have s1 : sizeOf qkvs < n := by
        simp at hsz
        omega
      rw [← hRE, ← hRE']
      exact interExchange_sdiff S S'
        (applyFilters_subset eng S qkvs E hE)
        (applyFilters_subset eng S' qkvs E' hE')
        ((ih (sizeOf qkvs) s1).1 S S' qkvs E E' (le_refl _) hE hE')
    | none => unfold opNot at h; cases h
    | bool b => unfold opNot at h; cases h
    | int m => unfold opNot at h; cases h
    | str t => unfold opNot at h; cases h
    | list xs => unfold opNot at h; cases h
  have hEntry : ∀ (S S' : Finset PathStr) (k : String) (v : Value) (R R' : Finset PathStr),
      sizeOf v ≤ n → applyEntry eng S k v = .ok R →
      applyEntry eng S' k v = .ok R' → R ∩ S' = R' ∩ S := by
    intro S S' k v R R' hsz h h'
    unfold applyEntry at h h'
    by_cases hd : dollarKey k = true
    · rw [if_pos hd] at h h'
      by_cases h1 : k = "$and"
      · rw [if_pos h1] at h h'
        exact hAnd S S' v R R' hsz h h'
      · rw [if_neg h1] at h h'
        by_cases h2 : k = "$or"
        · rw [if_pos h2] at h h'
          exact hOr S S' v R R' hsz h h'
        · rw [if_neg h2] at h h'
          by_cases h3 : k = "$not"
          · rw [if_pos h3] at h h'
            exact hNot S S' v R R' hsz h h'
          · rw [if_neg h3] at h h'
            by_cases h4 : knownOp k = true
            · rw [if_pos h4] at h h'
              rw [setOpFilter_ok eng k v S R h, setOpFilter_ok eng k v S' R' h']
              exact interExchange_filter S S' _
            · rw [if_neg h4] at h h'
              cases h
              cases h'
              exact Finset.inter_comm _ _
    · rw [if_neg hd] at h h'
      cases v with
      | dict kvs =>
        by_cases hall : (kvs.all fun kv => dollarKey kv.1) = true
        · simp only [if_pos hall] at h h'
          exact applyOps_exchange eng _ _ kvs S S' R R' h h'
        · simp only [if_neg hall] at h h'
          cases h
          cases h'
          exact filterByFieldEq_exchange _ S S' _ _ _
      | none => cases h; cases h'; exact filterByFieldEq_exchange _ S S' _ _ _
      | bool b => cases h; cases h'; exact filterByFieldEq_exchange _ S S' _ _ _
      | int m => cases h; cases h'; exact filterByFieldEq_exchange _ S S' _ _ _
      | str t => cases h; cases h'; exact filterByFieldEq_exchange _ S S' _ _ _
      | list xs => cases h; cases h'; exact filterByFieldEq_exchange _ S S' _ _ _
  refine ⟨?_, hEntry, hAnd, hFold, hOr, hOrFold, hNot⟩
  intro S S' q R R' hsz h h'
  cases q with
  | nil =>
    unfold applyFilters at h h'
    cases h
    cases h'
    exact Finset.inter_comm _ _
  | cons kv rest =>
    obtain ⟨k, v⟩ := kv
    unfold applyFilters at h h'
    obtain ⟨A, hA, hrest⟩ := bindOk h
    obtain ⟨A', hA', hrest'⟩ := bindOk h'
    have s1 : sizeOf v ≤ n := by
      simp at hsz
      omega
    have s2 : sizeOf rest < n := by
      simp at hsz
      omega
    exact interExchange_compose
      (applyEntry_subset eng S k v A hA)
      (applyEntry_subset eng S' k v A' hA')
      (applyFilters_subset eng A rest R hrest)
      (applyFilters_subset eng A' rest R' hrest')
      (hEntry S S' k v A A' s1 hA hA')
      ((ih (sizeOf rest) s2).1 A A' rest R R' (le_refl _) hrest hrest')

/-- Working-set exchange for `_apply_filters`. -/
theorem applyFilters_exchange (eng : QueryEngine) (S S' : Finset PathStr)
    (q : List (String × Value)) (R R' : Finset PathStr)
    (h : applyFilters eng S q = .ok R) (h' : applyFilters eng S' q = .ok R') :
    R ∩ S' = R' ∩ S :=
  (exchAux eng (sizeOf q)).1 S S' q R R' (le_refl _) h h'

theorem bindRet {α : Type} (e : Except PyErr α) :
    (e.bind fun x => Except.ok x) = e := by
  cases e <;> rfl

theorem applyFilters_nil (eng : QueryEngine) (S : Finset PathStr) :
    applyFilters eng S [] = .ok S := by
  conv_lhs => unfold applyFilters

theorem applyFilters_cons (eng : QueryEngine) (S : Finset PathStr) (k : String)
    (v : Value) (rest : List (String × Value)) :
    applyFilters eng S ((k, v) :: rest) =
      (applyEntry eng S k v).bind fun A => applyFilters eng A rest := by
  conv_lhs => unfold applyFilters

theorem opAndFold_nil (eng : QueryEngine) (S : Finset PathStr) :
    opAndFold eng S [] = .ok S := by
  conv_lhs => unfold opAndFold

theorem opAndFold_cons (eng : QueryEngine) (S : Finset PathStr)
    (a : List (String × Value)) (rest : List Value) :
    opAndFold eng S (.dict a :: rest) =
      (applyFilters eng S a).bind fun A => opAndFold eng A rest := by
  conv_lhs => unfold opAndFold

theorem opOrFold_nil (eng : QueryEngine) (S : Finset PathStr) :
    opOrFold eng S [] = .ok ∅ := by
  conv_lhs => unfold opOrFold

theorem opOrFold_cons (eng : QueryEngine) (S : Finset PathStr)
    (a : List (String × Value)) (rest : List Value) :
    opOrFold eng S (.dict a :: rest) =
      (applyFilters eng S a).bind fun A =>
        (opOrFold eng S rest).map fun u => A ∪ u := by
  conv_lhs => unfold opOrFold

theorem applyEntry_and (eng : QueryEngine) (S : Finset PathStr) (v : Value) :
    applyEntry eng S "$and" v = opAnd eng S v := by
  unfold applyEntry
  rw [if_pos (by decide), if_pos rfl]

theorem applyEntry_or (eng : QueryEngine) (S : Finset PathStr) (v : Value) :
    applyEntry eng S "$or" v = opOr eng S v := by
  unfold applyEntry
  rw [if_pos (by decide), if_neg (by decide), if_pos rfl]

theorem applyEntry_not (eng : QueryEngine) (S : Finset PathStr) (v : Value) :
    applyEntry eng S "$not" v = opNot eng S v := by
  unfold applyEntry
  rw [if_pos (by decide), if_neg (by decide), if_neg (by decide), if_pos rfl]

theorem opAnd_list (eng : QueryEngine) (S : Finset PathStr) (cs : List Value) :
    opAnd eng S (.list cs) = opAndFold eng S cs := by
  conv_lhs => unfold opAnd

theorem opOr_list (eng : QueryEngine) (S : Finset PathStr) (cs : List Value) :
    opOr eng S (.list cs) = opOrFold eng S cs := by
  conv_lhs => unfold opOr

theorem opNot_dict (eng : QueryEngine) (S : Finset PathStr)
    (kvs : List (String × Value)) :
    opNot eng S (.dict kvs) = (applyFilters eng S kvs).map fun E => S \ E := by
  conv_lhs => unfold opNot

theorem applyFilters_single_and (eng : QueryEngine) (S : Finset PathStr)
    (cs : List Value) :
    applyFilters eng S [("$and", .list cs)] = opAndFold eng S cs := by
  rw [applyFilters_cons, applyEntry_and, opAnd_list]
  rcases h : opAndFold eng S cs with e | A
  · rfl
  · show applyFilters eng A [] = _
    rw [applyFilters_nil]

theorem applyFilters_single_or (eng : QueryEngine) (S : Finset PathStr)
    (cs : List Value) :
    applyFilters eng S [("$or", .list cs)] = opOrFold eng S cs := by
  rw [applyFilters_cons, applyEntry_or, opOr_list]
  rcases h : opOrFold eng S cs with e | A
  · rfl
  · show applyFilters eng A [] = _
    rw [applyFilters_nil]

theorem applyFilters_single_not (eng : QueryEngine) (S : Finset PathStr)
    (kvs : List (String × Value)) :
    applyFilters eng S [("$not", .dict kvs)] =
      (applyFilters eng S kvs).map fun E => S \ E := by
  rw [applyFilters_cons, applyEntry_not, opNot_dict]
  rcases h : applyFilters eng S kvs with e | E
  · rfl
  · show applyFilters eng (S \ E) [] = _
    rw [applyFilters_nil]
    rfl

theorem opAndFold_two (eng : QueryEngine) (S : Finset PathStr)
    (a b : List (String × Value)) :
    opAndFold eng S [.dict a, .dict b] =
      (applyFilters eng S a).bind fun A => applyFilters eng A b := by
  rw [opAndFold_cons]
  rcases h : applyFilters eng S a with e | A
  · rfl
  · show opAndFold eng A [Value.dict b] = applyFilters eng A b
    rw [opAndFold_cons]
    rcases h2 : applyFilters eng A b with e2 | B
    · rfl
    · show opAndFold eng B [] = _
      rw [opAndFold_nil]

theorem opAndFold_one (eng : QueryEngine) (S : Finset PathStr)
    (a : List (String × Value)) :
    opAndFold eng S [.dict a] = applyFilters eng S a := by
  rw [opAndFold_cons]
  rcases h : applyFilters eng S a with e | A
  · rfl
  · show opAndFold eng A [] = _
    rw [opAndFold_nil]

theorem bindAssoc {α β γ : Type} (e : Except PyErr α) (f : α → Except PyErr β)
    (g : β → Except PyErr γ) :
    (e.bind f).bind g = e.bind fun x => (f x).bind g := by
  cases e <;> rfl

/-- C7 amended: over every registry and sub-queries `p`, `q`, `r` —
`$and` is associative (as full evaluations, errors included);
`$or [q]` equals `q`; `$not $not q` equals `q`; and `$and` is
commutative up to set equality whenever both evaluation orders return a
result.  Commutativity does NOT hold unconditionally: a sub-query that
raises (e.g. a numeric comparison against a present field) can make one
order raise while the other returns (see
`and_commutativity_fails_on_raising_subquery`). -/
theorem query_logical_laws (eng : QueryEngine) (p q r : List (String × Value)) :
    (eng.execute [("$and", .list [.dict [("$and", .list [.dict p, .dict q])], .dict r])] =
      eng.execute [("$and", .list [.dict p, .dict [("$and", .list [.dict q, .dict r])]])]) ∧
    (eng.execute [("$or", .list [.dict q])] = eng.execute q) ∧
    (eng.execute [("$not", .dict [("$not", .dict q)])] = eng.execute q) ∧
    (∀ u v : Finset PathStr,
      eng.execute [("$and", .list [.dict p, .dict q])] = .ok u →
      eng.execute [("$and", .list [.dict q, .dict p])] = .ok v → u = v) := by
  refine ⟨?_, ?_, ?_, ?_⟩
  · unfold QueryEngine.execute
    simp only [applyFilters_single_and, opAndFold_cons, opAndFold_nil,
      applyFilters_single_and, bindAssoc, bindRet]
  · unfold QueryEngine.execute
    rw [applyFilters_single_or, opOrFold_cons, opOrFold_nil]
    rcases h : applyFilters eng eng.registry.getAllPaths.toFinset q with e | A
    · rfl
    · show Except.map (fun u => A ∪ u) (Except.ok ∅) = Except.ok A
      simp [Except.map]
  · unfold QueryEngine.execute
    simp only [applyFilters_single_not]
    rcases h : applyFilters eng eng.registry.getAllPaths.toFinset q with e | R
    · rfl
    · show Except.ok (_ \ (_ \ R)) = Except.ok R
      have hsub : R ⊆ eng.registry.getAllPaths.toFinset :=
        applyFilters_subset eng _ q R h
      rw [Finset.sdiff_sdiff_self_left, Finset.inter_eq_right.mpr hsub]
  · intro u v hu hv
    unfold QueryEngine.execute at hu hv
    rw [applyFilters_single_and, opAndFold_two] at hu hv
    obtain ⟨A, hA, hAq⟩ := bindOk hu
    obtain ⟨B, hB, hBp⟩ := bindOk hv
    have e1 := applyFilters_exchange eng eng.registry.getAllPaths.toFinset B p A v hA hBp
    have e2 := applyFilters_exchange eng A eng.registry.getAllPaths.toFinset q u B hAq hB
    have hAU : A ⊆ eng.registry.getAllPaths.toFinset := applyFilters_subset eng _ p A hA
    have hBU : B ⊆ eng.registry.getAllPaths.toFinset := applyFilters_subset eng _ q B hB
    have huA : u ⊆ A := applyFilters_subset eng A q u hAq
    have hvB : v ⊆ B := applyFilters_subset eng B p v hBp
    have hvU : v ∩ eng.registry.getAllPaths.toFinset = v :=
      Finset.inter_eq_left.mpr (hvB.trans hBU)
    have huU : u ∩ eng.registry.getAllPaths.toFinset = u :=
      Finset.inter_eq_left.mpr (huA.trans hAU)
    rw [hvU] at e1
    rw [huU] at e2
    rw [e2, Finset.inter_comm, ← e1, Finset.inter_comm]

/-- The C7 counterexample state: `/a` has user `{w: 1}`, `/b` has user
`{x: 1}`. -/
def c7St : ManagerState :=
  stOf (addFile plainHost
    (stOf (addFile plainHost ManagerState.empty "/a" (some [("w", .int 1)])))
    "/b" (some [("x", .int 1)]))

/-- C7 counterexample: with `P = {"w": {"$gt": 0}}` and `Q = {"x": 1}`,
`$and [P, Q]` raises (the `$gt` test runs against `/a`, whose field is
present, and `[1] > 0` is a TypeError) while `$and [Q, P]` returns the
empty set (the equality on `x` first narrows the set to `/b`, which has
no `w`).  `$and` is therefore not commutative up to set equality of the
returned path sets, as the claim states it. -/
theorem and_commutativity_fails_on_raising_subquery :
    QueryEngine.execute ⟨c7St.registry, rxNone⟩
        [("$and", .list [.dict [("w", .dict [("$gt", .int 0)])], .dict [("x", .int 1)]])] =
      .error .raised ∧
    QueryEngine.execute ⟨c7St.registry, rxNone⟩
        [("$and", .list [.dict [("x", .int 1)], .dict [("w", .dict [("$gt", .int 0)])]])] =
      .ok ∅ := by
  constructor <;>
    simp +decide [QueryEngine.execute, applyFilters, applyEntry, applyOps, opAnd,
      opAndFold, filterByFieldOp, fieldOpTestAt, fieldOpTest, rawOpTest, pyCmp, pyNum?,
      filterByFieldEq, fieldEqTest, fieldOpValue, c7St, stOf, addFile, runPlugins,
      processFile, plainHost, ManagerState.empty, MetadataRegistry.empty,
      MetadataRegistry.add, MetadataRegistry.get, MetadataRegistry.getAllPaths,
      MetadataRegistry.findByField, dictSet, sFind?, vFind?, vInsert, parseField,
      splitFirstDot, dollarKey, knownOp, knownOps, indexMetadata, indexSectionData,
      indexField, isIndexable, pyEq, SecondaryIndexes.get?, SecondaryIndexes.set,
      exceptOk, exceptTrue, Finset.forall_mem_insert, Except.bind,
      Finset.filter_insert, Finset.filter_singleton]

/-- Witness for `query_logical_laws` at a concrete engine and concrete
sub-queries, with the commutativity hypotheses discharged by evaluating
both `$and` orders. -/
theorem query_logical_laws_witness :
    (QueryEngine.execute ⟨c7St.registry, rxNone⟩
        [("$or", .list [.dict [("x", .int 1)]])] =
      QueryEngine.execute ⟨c7St.registry, rxNone⟩ [("x", .int 1)]) ∧
    ({"/b"} : Finset PathStr) = {"/b"} := by
  have h : QueryEngine.execute ⟨c7St.registry, rxNone⟩
      [("$and", .list [.dict [("x", .int 1)], .dict [("x", .int 1)]])] =
        .ok {"/b"} := by
    simp +decide [QueryEngine.execute, applyFilters, applyEntry, opAnd, opAndFold,
      filterByFieldEq, fieldEqTest, fieldOpValue, c7St, stOf, addFile, runPlugins,
      processFile, plainHost, ManagerState.empty, MetadataRegistry.empty,
      MetadataRegistry.add, MetadataRegistry.get, MetadataRegistry.getAllPaths,
      MetadataRegistry.findByField, dictSet, sFind?, vFind?, vInsert, parseField,
      splitFirstDot, dollarKey, knownOp, knownOps, indexMetadata, indexSectionData,
      indexField, isIndexable, pyEq, SecondaryIndexes.get?, SecondaryIndexes.set,
      Except.bind, Finset.filter_insert, Finset.filter_singleton]
  exact ⟨(query_logical_laws ⟨c7St.registry, rxNone⟩ [("x", .int 1)] [("x", .int 1)]
      [("x", .int 1)]).2.1,
    (query_logical_laws ⟨c7St.registry, rxNone⟩ [("x", .int 1)] [("x", .int 1)]
      [("x", .int 1)]).2.2.2 {"/b"} {"/b"} h h⟩
